import Mathlib

/-!
Verification of the cost-basis ledger engine and exchange-rate resolver of
the tax-etrade repository.

The Python sources under `src/tax_engine/` are shallowly embedded here:

* exact decimal quantities (`decimal.Decimal`) become rationals `ℚ`, with the
  two `quantize` calls of the source (four and two decimal places, rounding
  mode `ROUND_HALF_UP`, i.e. ties away from zero) modelled by `round4` and
  `round2`;
* calendar dates of the ledger engine become a `Date` structure ordered
  lexicographically by (year, month, day), exactly as Python `datetime.date`
  compares; the rate resolver works with day ordinals (`ℤ`), on which
  `timedelta(days = k)` is subtraction of `k`;
* the mutable `TaxEngine` object becomes explicit state passing: each method
  returns the new engine value, and a method that raises returns `Except.error`
  together with the unchanged engine;
* Python exceptions become the inductive types `TaxError` and `RateError`;
  the formatted message of each exception names the pieces of data that the
  corresponding constructor carries as payload;
* the ECB upstream source (HTTP plus XML extraction) is modelled by its
  observable content: either a fetch failure message or a partial map from day
  ordinals to published EUR/USD observation values.

Decimal arithmetic in Python is exact for these operations far beyond the
magnitudes the engine manipulates (the default context keeps 28 significant
digits and every division is immediately quantized), so modelling it with
exact rationals plus the explicit quantization points is faithful.
-/

set_option maxRecDepth 4000

set_option autoImplicit false

/-- Rounding of a rational to an integer, to the nearest integer with ties
away from zero. Models the `ROUND_HALF_UP` rounding mode of the Python
`decimal` module. -/
def halfUpInt (x : ℚ) : ℤ :=
  if 0 ≤ x then ⌊x + 1/2⌋ else -⌊-x + 1/2⌋

/-- Models `Decimal.quantize(Decimal("0.0001"), ROUND_HALF_UP)`: rounding to
four decimal places, ties away from zero. -/
def round4 (x : ℚ) : ℚ :=
  (halfUpInt (x * 10000) : ℚ) / 10000

/-- Models `Decimal.quantize(Decimal("0.01"), ROUND_HALF_UP)`: rounding to two
decimal places, ties away from zero. -/
def round2 (x : ℚ) : ℚ :=
  (halfUpInt (x * 100) : ℚ) / 100

/-- Calendar date, compared lexicographically by (year, month, day) exactly as
Python `datetime.date` compares. -/
structure Date where
  year : ℕ
  month : ℕ
  day : ℕ
  deriving DecidableEq, Repr

/-- Strict chronological order on dates (Python `date < date`). -/
def Date.ltb (a b : Date) : Bool :=
  (decide (a.year < b.year)) ||
    ((decide (a.year = b.year)) &&
      ((decide (a.month < b.month)) ||
        ((decide (a.month = b.month)) && (decide (a.day < b.day)))))

/-- Event kinds of `models.EventType`. -/
inductive EventType where
  | VEST
  | BUY
  | SELL
  deriving DecidableEq, Repr

/-- Sort priority of an event type inside `TaxEngine._sort_events`
(`VEST = 0`, `BUY = 1`, `SELL = 2`). -/
def typePriority : EventType → ℕ
  | .VEST => 0
  | .BUY => 1
  | .SELL => 2

/-- Transaction record `models.StockEvent`. `shares` and `priceUsd` are exact
decimals; `fxRate` is the optional explicit USD to EUR rate. -/
structure StockEvent where
  eventDate : Date
  eventType : EventType
  shares : ℚ
  priceUsd : ℚ
  fxRate : Option ℚ
  notes : String
  deriving DecidableEq, Repr

/-- Resolved FX rate of an event (`StockEvent.resolved_fx_rate`): the explicit
rate when present, otherwise the rate the ECB resolver returns for the event
date. The resolver (a global in the source) is passed as the function `ecb`;
the memoization of the source is invisible in a pure model. -/
def StockEvent.resolvedFxRate (ecb : Date → ℚ) (e : StockEvent) : ℚ :=
  match e.fxRate with
  | some r => r
  | none => ecb e.eventDate

/-- Price per share in EUR (`StockEvent.price_eur`):
`round4(price_usd * resolved_fx_rate)`. -/
def StockEvent.priceEur (ecb : Date → ℚ) (e : StockEvent) : ℚ :=
  round4 (e.priceUsd * e.resolvedFxRate ecb)

/-- Total transaction value in EUR (`StockEvent.total_value_eur`):
`round4(shares * price_eur)`. -/
def StockEvent.totalValueEur (ecb : Date → ℚ) (e : StockEvent) : ℚ :=
  round4 (e.shares * e.priceEur ecb)

/-- Output record `models.ProcessedEvent`. -/
structure ProcessedEvent where
  event : StockEvent
  totalSharesAfter : ℚ
  avgCostEurAfter : ℚ
  realizedGainLoss : ℚ
  costChangeEur : ℚ
  totalPortfolioCostEur : ℚ
  deriving DecidableEq, Repr

/-- Accumulated per-year totals, `models.YearlyTaxSummary`. -/
structure YearlyTaxSummary where
  year : ℕ
  totalGains : ℚ
  totalLosses : ℚ
  deriving DecidableEq, Repr

/-- Derived `YearlyTaxSummary.net_gain_loss = total_gains + total_losses`. -/
def YearlyTaxSummary.netGainLoss (s : YearlyTaxSummary) : ℚ :=
  s.totalGains + s.totalLosses

/-- Derived `YearlyTaxSummary.taxable_gain = max(0, net_gain_loss)`. -/
def YearlyTaxSummary.taxableGain (s : YearlyTaxSummary) : ℚ :=
  max 0 s.netGainLoss

/-- Derived `YearlyTaxSummary.kest_due`: taxable gain times the statutory
27.5 percent rate, quantized to two decimal places half-up. -/
def YearlyTaxSummary.kestDue (s : YearlyTaxSummary) : ℚ :=
  round2 (s.taxableGain * (275/1000))

/-- Position snapshot `models.TaxEngineState`. -/
structure TaxEngineState where
  totalShares : ℚ
  avgCostEur : ℚ
  totalPortfolioCostEur : ℚ
  deriving DecidableEq, Repr

/-- Engine-internal failure. `inventoryExceeded` models the `ValueError`
raised by `TaxEngine._process_sell` when the depot check fails; its message
names exactly the event date, the requested share quantity and the held share
quantity, carried here as payload. The unknown-event-kind `ValueError` of
`TaxEngine.process_event` has no counterpart because `EventType` is a closed
inductive type. -/
inductive TaxError where
  | inventoryExceeded (eventDate : Date) (requested : ℚ) (available : ℚ)
  deriving DecidableEq, Repr

/-- The mutable state of a `TaxEngine` object: position state, the grown list
of processed events, and the per-year summaries (a Python dict keyed by year,
modelled as an association list in insertion order). -/
structure TaxEngine where
  state : TaxEngineState
  processedEvents : List ProcessedEvent
  yearlySummaries : List (ℕ × YearlyTaxSummary)
  deriving DecidableEq, Repr

/-- Engine state after `TaxEngine.__init__` or `TaxEngine.reset`. -/
def initEngine : TaxEngine :=
  ⟨⟨0, 0, 0⟩, [], []⟩

/-- Lookup in an association list (Python `dict[k]` / `dict.get(k)`). -/
def alookup {α β : Type} [DecidableEq α] (l : List (α × β)) (k : α) : Option β :=
  (l.find? (fun p => decide (p.1 = k))).map (fun p => p.2)

/-- Models `if year not in self.yearly_summaries: self.yearly_summaries[year]
= YearlyTaxSummary(year=year)` inside `TaxEngine.process_event`. -/
def ensureYear (l : List (ℕ × YearlyTaxSummary)) (y : ℕ) :
    List (ℕ × YearlyTaxSummary) :=
  match alookup l y with
  | some _ => l
  | none => l ++ [(y, ⟨y, 0, 0⟩)]

/-- Models `self.yearly_summaries[year].total_gains += g`. -/
def addGain (l : List (ℕ × YearlyTaxSummary)) (y : ℕ) (g : ℚ) :
    List (ℕ × YearlyTaxSummary) :=
  l.map (fun p =>
    if p.1 = y then (p.1, ⟨p.2.year, p.2.totalGains + g, p.2.totalLosses⟩) else p)

/-- Models `self.yearly_summaries[year].total_losses += g`. -/
def addLoss (l : List (ℕ × YearlyTaxSummary)) (y : ℕ) (g : ℚ) :
    List (ℕ × YearlyTaxSummary) :=
  l.map (fun p =>
    if p.1 = y then (p.1, ⟨p.2.year, p.2.totalGains, p.2.totalLosses + g⟩) else p)

/-- `TaxEngine._process_acquisition`: moving-average update for a VEST or BUY
event. Returns the new position state and the produced `ProcessedEvent`. -/
def processAcquisition (ecb : Date → ℚ) (st : TaxEngineState) (ev : StockEvent) :
    TaxEngineState × ProcessedEvent :=
  let newCostEur := ev.totalValueEur ecb
  let newShares := ev.shares
  let oldTotalCost := st.totalShares * st.avgCostEur
  let newTotalCost := oldTotalCost + newCostEur
  let newTotalShares := st.totalShares + newShares
  let newAvgCost := if 0 < newTotalShares then round4 (newTotalCost / newTotalShares) else 0
  let st2 : TaxEngineState := ⟨newTotalShares, newAvgCost, round4 newTotalCost⟩
  (st2, ⟨ev, st2.totalShares, st2.avgCostEur, 0, newCostEur, st2.totalPortfolioCostEur⟩)

/-- `TaxEngine._process_sell`: depot check, realized gain/loss, quantity
draw-down at unchanged average cost, and the zero-position reset. The raise
of the source becomes `Except.error` before any state change. -/
def processSell (ecb : Date → ℚ) (st : TaxEngineState) (ev : StockEvent) :
    Except TaxError (TaxEngineState × ProcessedEvent) :=
  let sharesSold := ev.shares
  if st.totalShares < sharesSold then
    .error (.inventoryExceeded ev.eventDate sharesSold st.totalShares)
  else
    let sellPriceEur := ev.priceEur ecb
    let gainLoss := round4 ((sellPriceEur - st.avgCostEur) * sharesSold)
    let costRemoved := round4 (st.avgCostEur * sharesSold)
    let shares2 := st.totalShares - sharesSold
    let cost2 := st.totalPortfolioCostEur - costRemoved
    let st2 : TaxEngineState :=
      if shares2 = 0 then ⟨0, 0, 0⟩ else ⟨shares2, st.avgCostEur, cost2⟩
    .ok (st2, ⟨ev, st2.totalShares, st2.avgCostEur, gainLoss, -costRemoved,
      st2.totalPortfolioCostEur⟩)

/-- Bookkeeping shared by both branches of `TaxEngine.process_event`: store the
new position state, update the yearly summary of the event year, and append the
processed event to the history. -/
def recordResult (eng : TaxEngine) (st : TaxEngineState) (ev : StockEvent)
    (pe : ProcessedEvent) : TaxEngine :=
  let y := ev.eventDate.year
  let l1 := ensureYear eng.yearlySummaries y
  let l2 :=
    if 0 < pe.realizedGainLoss then addGain l1 y pe.realizedGainLoss
    else if pe.realizedGainLoss < 0 then addLoss l1 y pe.realizedGainLoss
    else l1
  ⟨st, eng.processedEvents ++ [pe], l2⟩

/-- `TaxEngine.process_event`. On a depot-check failure the exception
propagates before any mutation, so the unchanged engine is returned together
with the error. -/
def processEvent (ecb : Date → ℚ) (eng : TaxEngine) (ev : StockEvent) :
    TaxEngine × Except TaxError ProcessedEvent :=
  match ev.eventType with
  | .VEST | .BUY =>
    let r := processAcquisition ecb eng.state ev
    (recordResult eng r.1 ev r.2, .ok r.2)
  | .SELL =>
    match processSell ecb eng.state ev with
    | .error e => (eng, .error e)
    | .ok r => (recordResult eng r.1 ev r.2, .ok r.2)

/-- Comparison of the sort keys `(event_date, type_priority)` used by
`TaxEngine._sort_events`: lexicographic, dates chronological, priorities
`VEST = 0 < BUY = 1 < SELL = 2`. -/
def keyLeB (a b : StockEvent) : Bool :=
  if a.eventDate = b.eventDate then
    decide (typePriority a.eventType ≤ typePriority b.eventType)
  else
    Date.ltb a.eventDate b.eventDate

/-- The sort key of an event, for stating stability. -/
def eventKey (e : StockEvent) : Date × ℕ :=
  (e.eventDate, typePriority e.eventType)

/-- Stable insertion into a sorted list: the new element goes in front of the
first element whose key is greater than or equal to its own key. -/
def insertSorted (a : StockEvent) : List StockEvent → List StockEvent
  | [] => [a]
  | b :: l => if keyLeB a b then a :: b :: l else b :: insertSorted a l

/-- `TaxEngine._sort_events`: Python `sorted` with key
`(event_date, type_priority)`, a stable sort, modelled as stable insertion
sort. -/
def sortEvents : List StockEvent → List StockEvent
  | [] => []
  | a :: l => insertSorted a (sortEvents l)

/-- The sequential processing loop of `TaxEngine.process_all`: events are
applied in order; the first failure aborts the run, leaving the engine as of
the last successfully processed event. -/
def processAllAux (ecb : Date → ℚ) (eng : TaxEngine) :
    List StockEvent → TaxEngine × Except TaxError Unit
  | [] => (eng, .ok ())
  | ev :: evs =>
    match processEvent ecb eng ev with
    | (eng2, .ok _) => processAllAux ecb eng2 evs
    | (eng2, .error e) => (eng2, .error e)

/-- `TaxEngine.process_all`: reset, sort, then process sequentially; on
success the accumulated history is returned. -/
def processAll (ecb : Date → ℚ) (events : List StockEvent) :
    TaxEngine × Except TaxError (List ProcessedEvent) :=
  match processAllAux ecb initEngine (sortEvents events) with
  | (eng, .ok _) => (eng, .ok eng.processedEvents)
  | (eng, .error e) => (eng, .error e)

/-- A resolver stub for sample computations; the sample events all carry an
explicit FX rate, so it is never consulted. -/
def ecb0 : Date → ℚ := fun _ => 0

/-- Sample vest: 50 shares at 50 USD, rate 0.82 (price 41 EUR, cost 2050). -/
def evVest50 : StockEvent :=
  ⟨⟨2021, 5, 17⟩, .VEST, 50, 50, some (82/100), ""⟩

/-- Sample same-day sale of 20 shares at 60 USD, rate 0.82 (price 49.20). -/
def evSell20 : StockEvent :=
  ⟨⟨2021, 5, 17⟩, .SELL, 20, 60, some (82/100), ""⟩

/-- Sample over-sale of 100 shares, used against a 50-share position. -/
def evSell100 : StockEvent :=
  ⟨⟨2021, 6, 1⟩, .SELL, 100, 60, some (82/100), ""⟩

/-- Fractional acquisition: 1.5 shares at 0.0001 USD, rate 1. Its EUR cost is
round4(1.5 * 0.0001) = 0.0002, while the average cost becomes
round4(0.0002 / 1.5) = 0.0001, so 1.5 * 0.0001 = 0.00015 differs from the
recorded total cost 0.0002. -/
def evFracA : StockEvent :=
  ⟨⟨2021, 1, 4⟩, .VEST, 3/2, 1/10000, some 1, ""⟩

/-- Fractional acquisition: 0.5 shares at 0.0001 USD, rate 1 (cost 0.0001). -/
def evFracB : StockEvent :=
  ⟨⟨2021, 1, 5⟩, .VEST, 1/2, 1/10000, some 1, ""⟩

/-- Engine holding 50 shares at average cost 41 EUR (the state reached from
`initEngine` by processing `evVest50`), with the corresponding history. -/
def engVest50 : TaxEngine :=
  (processEvent ecb0 initEngine evVest50).1

/-- Processed record of the `evSell20` sale from the `engVest50` position:
gain round4((49.20 - 41) * 20) = 164, cost removed round4(41 * 20) = 820,
leaving 30 shares at average 41 and portfolio cost 1230. -/
def peSell20 : ProcessedEvent :=
  ⟨evSell20, 30, 41, 164, -820, 1230⟩

/-- Failures of the rate resolver, `ecb_rates.ECBRateFetcher`. `fetchError`
models the `RuntimeError("Failed to fetch ECB rates: ...")` raised when the
upstream request fails; `lookupError` models the
`ValueError("No ECB rate available for or before ...")`, carrying the
requested date that the message names. -/
inductive RateError where
  | fetchError (message : String)
  | lookupError (targetDate : ℤ)
  deriving DecidableEq, Repr

/-- The upstream ECB statistical source over day ordinals: either unreachable
(with the underlying error text) or a published series assigning to some dates
an EUR/USD observation value. HTTP transport and XML extraction of the source
are condensed into this observable content. -/
abbrev Upstream := Except String (ℤ → Option ℚ)

/-- The process-wide cache `ECBRateFetcher._rate_cache`, a date-keyed partial
map. -/
abbrev RateCache := ℤ → Option ℚ

/-- The cleared cache (`ECBRateFetcher.clear_cache`). -/
def emptyCache : RateCache := fun _ => none

/-- Write one entry into the cache (`cls._rate_cache[target] = rate`). -/
def cacheInsert (c : RateCache) (d : ℤ) (r : ℚ) : RateCache :=
  fun x => if x = d then some r else c x

/-- Merge a fetched table into the cache (`cls._rate_cache.update(rates)`). -/
def cacheUpdate (c : RateCache) (rates : List (ℤ × ℚ)) : RateCache :=
  fun x =>
    match alookup rates x with
    | some r => some r
    | none => c x

/-- The consecutive day ordinals from `lo` to `hi` inclusive. -/
def dateRange (lo hi : ℤ) : List ℤ :=
  (List.range (hi + 1 - lo).toNat).map (fun (i : ℕ) => lo + (i : ℤ))

/-- The date-to-rate table `_fetch_rates_for_period` builds from a reachable
source: one entry for each published date in the queried span, carrying the
inverted and rounded rate round4(1 / value) - the ECB publishes EUR/USD and
the resolver needs USD/EUR. -/
def ratesIn (pub : ℤ → Option ℚ) (lo hi : ℤ) : List (ℤ × ℚ) :=
  (dateRange lo hi).filterMap (fun d => (pub d).map (fun v => (d, round4 (1 / v))))

/-- `ECBRateFetcher._fetch_rates_for_period`: query the span, wrapping an
upstream failure into the fetch error. -/
def fetchRatesForPeriod (upstream : Upstream) (startDate endDate : ℤ) :
    Except RateError (List (ℤ × ℚ)) :=
  match upstream with
  | .error msg => .error (.fetchError msg)
  | .ok pub => .ok (ratesIn pub startDate endDate)

/-- The entry with the largest date at most `t`. Models the source pattern of
sorting the available dates in descending order and taking the first one at
most the target (`get_rate`), or equivalently scanning the descending order
and breaking at the first match (`get_rates_bulk`), combined with the
following `rates[d]` lookup; fetched tables never repeat a date. -/
def nearestOnOrBefore (t : ℤ) : List (ℤ × ℚ) → Option (ℤ × ℚ)
  | [] => none
  | p :: ps =>
    match nearestOnOrBefore t ps with
    | none => if p.1 ≤ t then some p else none
    | some q => if p.1 ≤ t ∧ q.1 < p.1 then some p else some q

/-- `ECBRateFetcher.get_rate`: serve from cache when possible, otherwise fetch
the span of the 10 preceding days, merge it into the cache, and answer with
the rate of the target date, or of the most recent fetched date before it
(caching that fallback), or fail with the lookup error. -/
def getRate (upstream : Upstream) (cache : RateCache) (target : ℤ) :
    Except RateError ℚ × RateCache :=
  match cache target with
  | some r => (.ok r, cache)
  | none =>
    match fetchRatesForPeriod upstream (target - 10) target with
    | .error e => (.error e, cache)
    | .ok rates =>
      let cache1 := cacheUpdate cache rates
      match alookup rates target with
      | some r => (.ok r, cache1)
      | none =>
        match nearestOnOrBefore target rates with
        | some p => (.ok p.2, cacheInsert cache1 target p.2)
        | none => (.error (.lookupError target), cache1)

/-- Per-target loop of `get_rates_bulk`: assign each requested date its direct
rate, or the nearest previous fetched rate (also writing that fallback into
the cache), failing with the lookup error at the first date with no rate on or
before it. -/
def bulkAssign (rates : List (ℤ × ℚ)) :
    List ℤ → RateCache → List (ℤ × ℚ) →
      Except RateError (List (ℤ × ℚ)) × RateCache
  | [], cache, acc => (.ok acc, cache)
  | t :: ts, cache, acc =>
    match alookup rates t with
    | some r => bulkAssign rates ts cache (acc ++ [(t, r)])
    | none =>
      match nearestOnOrBefore t rates with
      | some p => bulkAssign rates ts (cacheInsert cache t p.2) (acc ++ [(t, p.2)])
      | none => (.error (.lookupError t), cache)

/-- Python `min` over a nonempty list of day ordinals. -/
def listMin : List ℤ → ℤ
  | [] => 0
  | a :: l => l.foldl min a

/-- Python `max` over a nonempty list of day ordinals. -/
def listMax : List ℤ → ℤ
  | [] => 0
  | a :: l => l.foldl max a

/-- `ECBRateFetcher.get_rates_bulk`: an empty request returns the empty
mapping without fetching; otherwise one single fetch covers the span from
min(dates) - 10 to max(dates), the table is merged into the cache, and every
requested date is assigned. The third component logs the spans passed to the
upstream fetch, recording that exactly one fetch happens per nonempty batch. -/
def getRatesBulk (upstream : Upstream) (cache : RateCache) (dates : List ℤ) :
    Except RateError (List (ℤ × ℚ)) × RateCache × List (ℤ × ℤ) :=
  match dates with
  | [] => (.ok [], cache, [])
  | d :: ds =>
    let lo := listMin (d :: ds) - 10
    let hi := listMax (d :: ds)
    match fetchRatesForPeriod upstream lo hi with
    | .error e => (.error e, cache, [(lo, hi)])
    | .ok rates =>
      let r := bulkAssign rates (d :: ds) (cacheUpdate cache rates) []
      (r.1, r.2, [(lo, hi)])

/-- The rate `get_rates_bulk` computes for one requested date from a fetched
table: the direct entry when present, otherwise the nearest previous one. -/
def ratesFor (rates : List (ℤ × ℚ)) (t : ℤ) : Option ℚ :=
  match alookup rates t with
  | some r => some r
  | none => (nearestOnOrBefore t rates).map (fun p => p.2)

/-- Sample message text of a failed upstream request. -/
def sampleMsg : String := "network unreachable"

/-- Sample published series: a single observation 1.25 three days before the
origin; the inverted rate is round4(1 / 1.25) = 0.8. -/
def pubNear : ℤ → Option ℚ :=
  fun d => if d = -3 then some (5/4) else none

/-- Sample published series whose only observation sits eleven days back,
just outside the fixed ten-day look-back window of `get_rate`. -/
def pubFar : ℤ → Option ℚ :=
  fun d => if d = -11 then some 1 else none

/-- Sample published series for bulk requests: observations at day 2 and at
day -3, both 1.25. -/
def pubTwo : ℤ → Option ℚ :=
  fun d => if d = 2 then some (5/4) else if d = -3 then some (5/4) else none

example : round4 (3/20000) = 2/10000 := by norm_num [round4, halfUpInt]
example : round4 (1/8000) = 1/10000 := by norm_num [round4, halfUpInt]
example : round2 ((49193/100) * (275/1000)) = 13528/100 := by norm_num [round2, halfUpInt]
example : round4 (-(1/20000)) = -(1/10000) := by norm_num [round4, halfUpInt]

lemma processEvent_acq (ecb : Date → ℚ) (eng : TaxEngine) (ev : StockEvent)
    (h : ev.eventType = EventType.VEST ∨ ev.eventType = EventType.BUY) :
    processEvent ecb eng ev =
      (recordResult eng (processAcquisition ecb eng.state ev).1 ev
          (processAcquisition ecb eng.state ev).2,
        Except.ok (processAcquisition ecb eng.state ev).2) := by
  rcases ev with ⟨d, ty, sh, pu, fx, nt⟩
  cases ty with
  | VEST => rfl
  | BUY => rfl
  | SELL => simp at h

lemma processEvent_sell (ecb : Date → ℚ) (eng : TaxEngine) (ev : StockEvent)
    (h : ev.eventType = EventType.SELL) :
    processEvent ecb eng ev =
      (match processSell ecb eng.state ev with
        | .error e => (eng, .error e)
        | .ok r => (recordResult eng r.1 ev r.2, .ok r.2)) := by
  rcases ev with ⟨d, ty, sh, pu, fx, nt⟩
  cases ty with
  | VEST => simp at h
  | BUY => simp at h
  | SELL => rfl

lemma processSell_eq_ok (ecb : Date → ℚ) (st : TaxEngineState) (ev : StockEvent)
    (hq : ev.shares ≤ st.totalShares) :
    processSell ecb st ev =
      Except.ok
        (let st2 : TaxEngineState :=
          if st.totalShares - ev.shares = 0 then ⟨0, 0, 0⟩
          else ⟨st.totalShares - ev.shares, st.avgCostEur,
            st.totalPortfolioCostEur - round4 (st.avgCostEur * ev.shares)⟩
        (st2, ⟨ev, st2.totalShares, st2.avgCostEur,
          round4 ((ev.priceEur ecb - st.avgCostEur) * ev.shares),
          -(round4 (st.avgCostEur * ev.shares)), st2.totalPortfolioCostEur⟩)) := by
  unfold processSell
  rw [if_neg (not_lt.mpr hq)]

lemma acquisition_update (ecb : Date → ℚ) (eng : TaxEngine) (ev : StockEvent)
    (h : ev.eventType = EventType.VEST ∨ ev.eventType = EventType.BUY) :
    ∃ pe : ProcessedEvent, ∃ eng2 : TaxEngine,
      processEvent ecb eng ev = (eng2, Except.ok pe) ∧
      eng2.state.totalShares = eng.state.totalShares + ev.shares ∧
      eng2.state.avgCostEur =
        (if 0 < eng.state.totalShares + ev.shares then
          round4 ((eng.state.totalShares * eng.state.avgCostEur + ev.totalValueEur ecb) /
            (eng.state.totalShares + ev.shares))
         else 0) ∧
      eng2.state.totalPortfolioCostEur =
        round4 (eng.state.totalShares * eng.state.avgCostEur + ev.totalValueEur ecb) ∧
      pe.realizedGainLoss = 0 ∧
      pe.costChangeEur = ev.totalValueEur ecb := by
  refine ⟨_, _, processEvent_acq ecb eng ev h, ?_, ?_, ?_, ?_, ?_⟩ <;>
    simp [recordResult, processAcquisition]

/-- C1: processing a SELL of q shares (q at most the held shares S) from
state (S, A, C) yields realized gain/loss round4((p - A) * q) for the rounded
EUR unit price p, cost basis change minus round4(A * q), post-state shares
S - q, unchanged average cost and cost C - round4(A * q) - except that a full
liquidation (S - q = 0) forces average cost and portfolio cost to exactly 0. -/
theorem c1_disposal_update (ecb : Date → ℚ) (eng : TaxEngine) (ev : StockEvent)
    (htype : ev.eventType = EventType.SELL)
    (hq : ev.shares ≤ eng.state.totalShares) :
    ∃ pe : ProcessedEvent, ∃ eng2 : TaxEngine,
      processEvent ecb eng ev = (eng2, Except.ok pe) ∧
      pe.realizedGainLoss = round4 ((ev.priceEur ecb - eng.state.avgCostEur) * ev.shares) ∧
      pe.costChangeEur = -(round4 (eng.state.avgCostEur * ev.shares)) ∧
      eng2.state.totalShares = eng.state.totalShares - ev.shares ∧
      eng2.state.avgCostEur =
        (if eng.state.totalShares - ev.shares = 0 then 0 else eng.state.avgCostEur) ∧
      eng2.state.totalPortfolioCostEur =
        (if eng.state.totalShares - ev.shares = 0 then 0
         else eng.state.totalPortfolioCostEur - round4 (eng.state.avgCostEur * ev.shares)) := by
  rw [processEvent_sell ecb eng ev htype, processSell_eq_ok ecb eng.state ev hq]
  by_cases h0 : eng.state.totalShares - ev.shares = 0 <;>
    refine ⟨_, _, rfl, ?_, ?_, ?_, ?_, ?_⟩ <;>
    simp [recordResult, h0]

/-- C1 witness: selling 20 of 50 held shares (average cost 41 EUR) at 49.20
EUR realizes round4((49.20 - 41) * 20) and leaves 30 shares. -/
theorem c1_disposal_update_witness :
    evSell20.eventType = EventType.SELL ∧
    evSell20.shares ≤ engVest50.state.totalShares ∧
    (∃ pe : ProcessedEvent, ∃ eng2 : TaxEngine,
      processEvent ecb0 engVest50 evSell20 = (eng2, Except.ok pe) ∧
      pe.realizedGainLoss =
        round4 ((evSell20.priceEur ecb0 - engVest50.state.avgCostEur) * evSell20.shares) ∧
      pe.costChangeEur = -(round4 (engVest50.state.avgCostEur * evSell20.shares)) ∧
      eng2.state.totalShares = engVest50.state.totalShares - evSell20.shares ∧
      eng2.state.avgCostEur =
        (if engVest50.state.totalShares - evSell20.shares = 0 then 0
         else engVest50.state.avgCostEur) ∧
      eng2.state.totalPortfolioCostEur =
        (if engVest50.state.totalShares - evSell20.shares = 0 then 0
         else engVest50.state.totalPortfolioCostEur -
           round4 (engVest50.state.avgCostEur * evSell20.shares))) := by
  refine ⟨rfl, ?_, c1_disposal_update ecb0 engVest50 evSell20 rfl ?_⟩ <;>
    norm_num [engVest50, evVest50, evSell20, processEvent, processAcquisition, recordResult,
      StockEvent.totalValueEur, StockEvent.priceEur, StockEvent.resolvedFxRate,
      initEngine, round4, halfUpInt]

/-- C2 (amended): an acquisition (VEST or BUY) of n shares with total EUR cost
c moves state (S, A, C) to S plus n shares, average
round4((S * A + c) / (S + n)) when the new share count is positive (0
otherwise), portfolio cost round4(S * A + c), zero realized gain/loss and
cost basis change c. For two acquisitions from the zero state the second
average is round4((n1 * A1 + c2) / (n1 + n2)) where A1 = round4(c1 / n1) is
the first rounded average; this equals the spec formula
round4((c1 + c2) / (n1 + n2)) whenever n1 * A1 = c1 (in particular for every
integer share count), but not in general. -/
theorem c2_acquisition_update :
    (∀ (ecb : Date → ℚ) (eng : TaxEngine) (ev : StockEvent),
      (ev.eventType = EventType.VEST ∨ ev.eventType = EventType.BUY) →
      ∃ pe : ProcessedEvent, ∃ eng2 : TaxEngine,
        processEvent ecb eng ev = (eng2, Except.ok pe) ∧
        eng2.state.totalShares = eng.state.totalShares + ev.shares ∧
        eng2.state.avgCostEur =
          (if 0 < eng.state.totalShares + ev.shares then
            round4 ((eng.state.totalShares * eng.state.avgCostEur + ev.totalValueEur ecb) /
              (eng.state.totalShares + ev.shares))
           else 0) ∧
        eng2.state.totalPortfolioCostEur =
          round4 (eng.state.totalShares * eng.state.avgCostEur + ev.totalValueEur ecb) ∧
        pe.realizedGainLoss = 0 ∧
        pe.costChangeEur = ev.totalValueEur ecb) ∧
    (∀ (ecb : Date → ℚ) (e1 e2 : StockEvent),
      (e1.eventType = EventType.VEST ∨ e1.eventType = EventType.BUY) →
      (e2.eventType = EventType.VEST ∨ e2.eventType = EventType.BUY) →
      0 < e1.shares → 0 < e1.shares + e2.shares →
      ((processEvent ecb (processEvent ecb initEngine e1).1 e2).1).state.avgCostEur =
        round4 ((e1.shares * round4 (e1.totalValueEur ecb / e1.shares) + e2.totalValueEur ecb) /
          (e1.shares + e2.shares)) ∧
      (e1.shares * round4 (e1.totalValueEur ecb / e1.shares) = e1.totalValueEur ecb →
        ((processEvent ecb (processEvent ecb initEngine e1).1 e2).1).state.avgCostEur =
          round4 ((e1.totalValueEur ecb + e2.totalValueEur ecb) / (e1.shares + e2.shares)))) := by
  constructor
  · exact fun ecb eng ev h => acquisition_update ecb eng ev h
  · intro ecb e1 e2 h1 h2 hn1 hn12
    obtain ⟨pe1, eng1, hE1, hSh1, hAvg1, _, _, _⟩ := acquisition_update ecb initEngine e1 h1
    obtain ⟨pe2, eng2, hE2, hSh2, hAvg2, _, _, _⟩ := acquisition_update ecb eng1 e2 h2
    have hfst1 : (processEvent ecb initEngine e1).1 = eng1 := by rw [hE1]
    have hfst2 : (processEvent ecb (processEvent ecb initEngine e1).1 e2).1 = eng2 := by
      rw [hfst1, hE2]
    have hsh : eng1.state.totalShares = e1.shares := by
      simpa [initEngine] using hSh1
    have havg : eng1.state.avgCostEur = round4 (e1.totalValueEur ecb / e1.shares) := by
      rw [hAvg1]
      simp [initEngine, hn1]
    have key : ((processEvent ecb (processEvent ecb initEngine e1).1 e2).1).state.avgCostEur =
        round4 ((e1.shares * round4 (e1.totalValueEur ecb / e1.shares) + e2.totalValueEur ecb) /
          (e1.shares + e2.shares)) := by
      rw [hfst2, hAvg2, hsh, havg, if_pos hn12]
    exact ⟨key, fun hexact => by rw [key, hexact]⟩

/-- C2 counterexample: acquiring 1.5 shares of total EUR cost 0.0002 and then
0.5 shares of cost 0.0001 from the zero state gives average cost
round4((1.5 * 0.0001 + 0.0001) / 2) = 0.0001, while the claimed formula
round4((0.0002 + 0.0001) / 2) gives 0.0002. -/
theorem c2_acquisition_update_counterexample :
    ((processEvent ecb0 (processEvent ecb0 initEngine evFracA).1 evFracB).1).state.avgCostEur ≠
      round4 ((evFracA.totalValueEur ecb0 + evFracB.totalValueEur ecb0) /
        (evFracA.shares + evFracB.shares)) := by
  norm_num [processEvent, processAcquisition, recordResult, initEngine, evFracA, evFracB,
    StockEvent.totalValueEur, StockEvent.priceEur, StockEvent.resolvedFxRate,
    round4, halfUpInt]

/-- C2 witness: two integer acquisitions, 50 shares of cost 2050 EUR and then
20 shares of cost 984 EUR, where the code and the spec formula agree:
round4((2050 + 984) / 70) = 43.3429. -/
theorem c2_acquisition_update_witness :
    (evVest50.eventType = EventType.VEST ∨ evVest50.eventType = EventType.BUY) ∧
    (0:ℚ) < evVest50.shares ∧
    ((processEvent ecb0 (processEvent ecb0 initEngine evVest50).1 evVest50).1).state.avgCostEur =
      round4 ((evVest50.totalValueEur ecb0 + evVest50.totalValueEur ecb0) /
        (evVest50.shares + evVest50.shares)) := by
  refine ⟨Or.inl rfl, by norm_num [evVest50], ?_⟩
  refine (c2_acquisition_update.2 ecb0 evVest50 evVest50 (Or.inl rfl) (Or.inl rfl)
    (by norm_num [evVest50]) (by norm_num [evVest50])).2 ?_
  norm_num [evVest50, StockEvent.totalValueEur, StockEvent.priceEur,
    StockEvent.resolvedFxRate, round4, halfUpInt]

lemma keyLeB_iff (a b : StockEvent) :
    keyLeB a b = true ↔
      (a.eventDate.year < b.eventDate.year ∨
        (a.eventDate.year = b.eventDate.year ∧
          (a.eventDate.month < b.eventDate.month ∨
            (a.eventDate.month = b.eventDate.month ∧
              (a.eventDate.day < b.eventDate.day ∨
                (a.eventDate.day = b.eventDate.day ∧
                  typePriority a.eventType ≤ typePriority b.eventType)))))) := by
  rcases a with ⟨⟨ay, am, ad⟩, aty, ash, ap, af, an⟩
  rcases b with ⟨⟨cy, cm, cd⟩, cty, csh, cp, cf, cn⟩
  dsimp only [keyLeB, Date.ltb]
  by_cases h : (⟨ay, am, ad⟩ : Date) = ⟨cy, cm, cd⟩
  · rw [if_pos h]
    rw [Date.mk.injEq] at h
    simp only [decide_eq_true_eq]
    omega
  · rw [if_neg h]
    rw [Date.mk.injEq] at h
    simp only [Bool.or_eq_true, Bool.and_eq_true, decide_eq_true_eq]
    omega

lemma keyLeB_total (a b : StockEvent) : keyLeB a b = true ∨ keyLeB b a = true := by
  rw [keyLeB_iff, keyLeB_iff]
  omega

lemma keyLeB_trans {a b c : StockEvent} (h1 : keyLeB a b = true)
    (h2 : keyLeB b c = true) : keyLeB a c = true := by
  rw [keyLeB_iff] at h1 h2 ⊢
  omega

lemma keyLeB_of_eventKey_eq {a b : StockEvent} (h : eventKey a = eventKey b) :
    keyLeB a b = true := by
  unfold eventKey at h
  rw [Prod.mk.injEq] at h
  rw [keyLeB_iff, h.1, h.2]
  omega

lemma insertSorted_perm (a : StockEvent) (l : List StockEvent) :
    List.Perm (insertSorted a l) (a :: l) := by
  induction l with
  | nil => exact List.Perm.refl _
  | cons b l ih =>
    unfold insertSorted
    by_cases h : keyLeB a b = true
    · rw [if_pos h]
    · rw [if_neg h]
      exact (ih.cons b).trans (List.Perm.swap a b l)

lemma sortEvents_perm (l : List StockEvent) : List.Perm (sortEvents l) l := by
  induction l with
  | nil => exact List.Perm.refl _
  | cons a l ih =>
    exact (insertSorted_perm a (sortEvents l)).trans (ih.cons a)

lemma mem_insertSorted {x a : StockEvent} {l : List StockEvent} :
    x ∈ insertSorted a l ↔ x = a ∨ x ∈ l := by
  rw [(insertSorted_perm a l).mem_iff, List.mem_cons]

lemma pairwise_insertSorted (a : StockEvent) {l : List StockEvent}
    (hl : l.Pairwise (fun x y => keyLeB x y = true)) :
    (insertSorted a l).Pairwise (fun x y => keyLeB x y = true) := by
  induction l with
  | nil => simp [insertSorted]
  | cons b l ih =>
    rw [List.pairwise_cons] at hl
    unfold insertSorted
    by_cases h : keyLeB a b = true
    · rw [if_pos h]
      refine List.Pairwise.cons ?_ (List.Pairwise.cons hl.1 hl.2)
      intro x hx
      rcases List.mem_cons.mp hx with rfl | hx
      · exact h
      · exact keyLeB_trans h (hl.1 x hx)
    · rw [if_neg h]
      refine List.Pairwise.cons ?_ (ih hl.2)
      intro x hx
      rcases mem_insertSorted.mp hx with rfl | hx
      · exact (keyLeB_total x b).resolve_left h
      · exact hl.1 x hx

lemma sortEvents_pairwise (l : List StockEvent) :
    (sortEvents l).Pairwise (fun x y => keyLeB x y = true) := by
  induction l with
  | nil => exact List.Pairwise.nil
  | cons a l ih => exact pairwise_insertSorted a ih

lemma filter_insertSorted (a : StockEvent) (l : List StockEvent) (k : Date × ℕ) :
    (insertSorted a l).filter (fun e => decide (eventKey e = k)) =
      (a :: l).filter (fun e => decide (eventKey e = k)) := by
  induction l with
  | nil => rfl
  | cons b l ih =>
    unfold insertSorted
    by_cases h : keyLeB a b = true
    · rw [if_pos h]
    · rw [if_neg h]
      have hne : eventKey a ≠ eventKey b := by
        intro he
        exact h (keyLeB_of_eventKey_eq he)
      by_cases ha : eventKey a = k <;> by_cases hb : eventKey b = k
      · exact absurd (ha.trans hb.symm) hne
      · simp [List.filter_cons, ha, hb, ih]
      · simp [List.filter_cons, ha, hb, ih]
      · simp [List.filter_cons, ha, hb, ih]

lemma sortEvents_stable (l : List StockEvent) (k : Date × ℕ) :
    (sortEvents l).filter (fun e => decide (eventKey e = k)) =
      l.filter (fun e => decide (eventKey e = k)) := by
  induction l with
  | nil => rfl
  | cons a l ih =>
    show (insertSorted a (sortEvents l)).filter _ = _
    rw [filter_insertSorted a (sortEvents l) k]
    by_cases ha : eventKey a = k <;> simp [List.filter_cons, ha, ih]

/-- C3: process_all sorts its input first: the processed order is a
permutation of the input that is sorted by (event date, VEST before BUY
before SELL) and stable (same-key events keep their input order, stated as
filter invariance for every key). Consequently a same-day VEST of 50 and SELL
of 20 succeed with 30 final shares, in either input order with identical
final results. -/
theorem c3_sorted_processing :
    (∀ l : List StockEvent,
      (sortEvents l).Pairwise (fun x y => keyLeB x y = true) ∧
      List.Perm (sortEvents l) l ∧
      (∀ k : Date × ℕ,
        (sortEvents l).filter (fun e => decide (eventKey e = k)) =
          l.filter (fun e => decide (eventKey e = k)))) ∧
    (∀ ecb : Date → ℚ,
      ((processAll ecb [evVest50, evSell20]).2).isOk = true ∧
      (processAll ecb [evVest50, evSell20]).1.state.totalShares = 30 ∧
      processAll ecb [evSell20, evVest50] = processAll ecb [evVest50, evSell20]) := by
  have hsorted : sortEvents [evVest50, evSell20] = [evVest50, evSell20] := by
    norm_num [sortEvents, insertSorted, keyLeB, typePriority, evVest50, evSell20]
  have hswapped : sortEvents [evSell20, evVest50] = [evVest50, evSell20] := by
    norm_num [sortEvents, insertSorted, keyLeB, typePriority, evVest50, evSell20]
  refine ⟨fun l => ⟨sortEvents_pairwise l, sortEvents_perm l, sortEvents_stable l⟩,
    fun ecb => ⟨?_, ?_, ?_⟩⟩
  · unfold processAll
    rw [hsorted]
    norm_num [processAllAux, processEvent, processAcquisition, processSell, recordResult,
      StockEvent.totalValueEur, StockEvent.priceEur, StockEvent.resolvedFxRate,
      initEngine, ensureYear, addGain, addLoss, alookup, evVest50, evSell20,
      round4, halfUpInt, Except.isOk, Except.toBool]
  · unfold processAll
    rw [hsorted]
    norm_num [processAllAux, processEvent, processAcquisition, processSell, recordResult,
      StockEvent.totalValueEur, StockEvent.priceEur, StockEvent.resolvedFxRate,
      initEngine, ensureYear, addGain, addLoss, alookup, evVest50, evSell20,
      round4, halfUpInt]
  · unfold processAll
    rw [hsorted, hswapped]

/-- C4: a disposal of more shares than held fails with the inventory error
carrying the event date, the requested and the available quantity, and
returns the engine unchanged (same state, history and summaries); concretely,
after acquiring 50 shares a SELL of 100 errors out and 50 shares remain. -/
theorem c4_depot_violation :
    (∀ (ecb : Date → ℚ) (eng : TaxEngine) (ev : StockEvent),
      ev.eventType = EventType.SELL →
      eng.state.totalShares < ev.shares →
      processEvent ecb eng ev =
        (eng, Except.error
          (TaxError.inventoryExceeded ev.eventDate ev.shares eng.state.totalShares))) ∧
    (processEvent ecb0 engVest50 evSell100 =
      (engVest50, Except.error
        (TaxError.inventoryExceeded evSell100.eventDate evSell100.shares
          engVest50.state.totalShares)) ∧
     engVest50.state.totalShares = 50) := by
  have main : ∀ (ecb : Date → ℚ) (eng : TaxEngine) (ev : StockEvent),
      ev.eventType = EventType.SELL →
      eng.state.totalShares < ev.shares →
      processEvent ecb eng ev =
        (eng, Except.error
          (TaxError.inventoryExceeded ev.eventDate ev.shares eng.state.totalShares)) := by
    intro ecb eng ev htype hlt
    rw [processEvent_sell ecb eng ev htype]
    unfold processSell
    rw [if_pos hlt]
  have h50 : engVest50.state.totalShares = 50 := by
    norm_num [engVest50, evVest50, processEvent, processAcquisition, recordResult,
      StockEvent.totalValueEur, StockEvent.priceEur, StockEvent.resolvedFxRate,
      initEngine, round4, halfUpInt]
  refine ⟨main, main ecb0 engVest50 evSell100 rfl ?_, h50⟩
  rw [h50]
  norm_num [evSell100]

/-- C4 witness: the depot-check theorem applied to the concrete 50-share
position and the 100-share sale. -/
theorem c4_depot_violation_witness :
    evSell100.eventType = EventType.SELL ∧
    engVest50.state.totalShares < evSell100.shares ∧
    processEvent ecb0 engVest50 evSell100 =
      (engVest50, Except.error
        (TaxError.inventoryExceeded evSell100.eventDate evSell100.shares
          engVest50.state.totalShares)) := by
  have hlt : engVest50.state.totalShares < evSell100.shares := by
    norm_num [engVest50, evVest50, evSell100, processEvent, processAcquisition, recordResult,
      StockEvent.totalValueEur, StockEvent.priceEur, StockEvent.resolvedFxRate,
      initEngine, round4, halfUpInt]
  exact ⟨rfl, hlt, c4_depot_violation.1 ecb0 engVest50 evSell100 rfl hlt⟩

lemma alookup_cons {α β : Type} [DecidableEq α] (p : α × β) (l : List (α × β)) (k : α) :
    alookup (p :: l) k = if p.1 = k then some p.2 else alookup l k := by
  by_cases h : p.1 = k <;> simp [alookup, List.find?_cons, h]

lemma alookup_append {α β : Type} [DecidableEq α] (l1 l2 : List (α × β)) (k : α) :
    alookup (l1 ++ l2) k =
      (match alookup l1 k with
       | some v => some v
       | none => alookup l2 k) := by
  induction l1 with
  | nil => simp [alookup]
  | cons p l ih =>
    rw [List.cons_append, alookup_cons, alookup_cons]
    by_cases h : p.1 = k <;> simp [h, ih]

lemma alookup_ensureYear_self (l : List (ℕ × YearlyTaxSummary)) (y : ℕ) :
    alookup (ensureYear l y) y = some ((alookup l y).getD ⟨y, 0, 0⟩) := by
  unfold ensureYear
  cases h : alookup l y with
  | some s => simp [h]
  | none => rw [alookup_append]; simp [h, alookup_cons]

lemma alookup_ensureYear_other (l : List (ℕ × YearlyTaxSummary)) (y y2 : ℕ)
    (h : y2 ≠ y) : alookup (ensureYear l y) y2 = alookup l y2 := by
  unfold ensureYear
  cases hc : alookup l y with
  | some s => rfl
  | none =>
    rw [alookup_append]
    cases h2 : alookup l y2 <;> simp [h2, alookup_cons, Ne.symm h, alookup]

lemma alookup_addGain_self (l : List (ℕ × YearlyTaxSummary)) (y : ℕ) (g : ℚ) :
    alookup (addGain l y g) y =
      (alookup l y).map (fun s => ⟨s.year, s.totalGains + g, s.totalLosses⟩) := by
  induction l with
  | nil => rfl
  | cons p l ih =>
    unfold addGain
    unfold addGain at ih
    rw [List.map_cons]
    by_cases h : p.1 = y <;> simp [alookup_cons, h, ih]

lemma alookup_addGain_other (l : List (ℕ × YearlyTaxSummary)) (y : ℕ) (g : ℚ)
    (y2 : ℕ) (h : y2 ≠ y) : alookup (addGain l y g) y2 = alookup l y2 := by
  induction l with
  | nil => rfl
  | cons p l ih =>
    unfold addGain
    unfold addGain at ih
    rw [List.map_cons]
    by_cases hp : p.1 = y <;> simp [alookup_cons, hp, ih, Ne.symm h]

lemma alookup_addLoss_self (l : List (ℕ × YearlyTaxSummary)) (y : ℕ) (g : ℚ) :
    alookup (addLoss l y g) y =
      (alookup l y).map (fun s => ⟨s.year, s.totalGains, s.totalLosses + g⟩) := by
  induction l with
  | nil => rfl
  | cons p l ih =>
    unfold addLoss
    unfold addLoss at ih
    rw [List.map_cons]
    by_cases h : p.1 = y <;> simp [alookup_cons, h, ih]

lemma alookup_addLoss_other (l : List (ℕ × YearlyTaxSummary)) (y : ℕ) (g : ℚ)
    (y2 : ℕ) (h : y2 ≠ y) : alookup (addLoss l y g) y2 = alookup l y2 := by
  induction l with
  | nil => rfl
  | cons p l ih =>
    unfold addLoss
    unfold addLoss at ih
    rw [List.map_cons]
    by_cases hp : p.1 = y <;> simp [alookup_cons, hp, ih, Ne.symm h]

lemma recordResult_summary (eng : TaxEngine) (st : TaxEngineState) (ev : StockEvent)
    (pe : ProcessedEvent) :
    (alookup (recordResult eng st ev pe).yearlySummaries ev.eventDate.year).map
        (fun s => (s.totalGains, s.totalLosses)) =
      some
        (((alookup eng.yearlySummaries ev.eventDate.year).getD
            ⟨ev.eventDate.year, 0, 0⟩).totalGains +
          (if 0 < pe.realizedGainLoss then pe.realizedGainLoss else 0),
         ((alookup eng.yearlySummaries ev.eventDate.year).getD
            ⟨ev.eventDate.year, 0, 0⟩).totalLosses +
          (if pe.realizedGainLoss < 0 then pe.realizedGainLoss else 0)) := by
  unfold recordResult
  dsimp only
  by_cases hpos : 0 < pe.realizedGainLoss
  · have hneg : ¬pe.realizedGainLoss < 0 := lt_asymm hpos
    rw [if_pos hpos, alookup_addGain_self, alookup_ensureYear_self]
    simp [hpos, hneg]
  · rw [if_neg hpos]
    by_cases hneg : pe.realizedGainLoss < 0
    · rw [if_pos hneg, alookup_addLoss_self, alookup_ensureYear_self]
      simp [hpos, hneg]
    · rw [if_neg hneg, alookup_ensureYear_self]
      simp [hpos, hneg]

lemma recordResult_summary_other (eng : TaxEngine) (st : TaxEngineState)
    (ev : StockEvent) (pe : ProcessedEvent) (y2 : ℕ) (h : y2 ≠ ev.eventDate.year) :
    alookup (recordResult eng st ev pe).yearlySummaries y2 =
      alookup eng.yearlySummaries y2 := by
  unfold recordResult
  dsimp only
  by_cases hpos : 0 < pe.realizedGainLoss
  · rw [if_pos hpos, alookup_addGain_other _ _ _ _ h, alookup_ensureYear_other _ _ _ h]
  · rw [if_neg hpos]
    by_cases hneg : pe.realizedGainLoss < 0
    · rw [if_pos hneg, alookup_addLoss_other _ _ _ _ h, alookup_ensureYear_other _ _ _ h]
    · rw [if_neg hneg, alookup_ensureYear_other _ _ _ h]

lemma processEvent_inv (ecb : Date → ℚ) (eng : TaxEngine) (ev : StockEvent)
    (hsh : 0 ≤ ev.shares) (hS : 0 ≤ eng.state.totalShares)
    (hh : ∀ pe ∈ eng.processedEvents, 0 ≤ pe.totalSharesAfter) :
    0 ≤ ((processEvent ecb eng ev).1).state.totalShares ∧
      ∀ pe ∈ ((processEvent ecb eng ev).1).processedEvents, 0 ≤ pe.totalSharesAfter := by
  have hacq : ∀ h : ev.eventType = EventType.VEST ∨ ev.eventType = EventType.BUY,
      0 ≤ ((processEvent ecb eng ev).1).state.totalShares ∧
      ∀ pe ∈ ((processEvent ecb eng ev).1).processedEvents, 0 ≤ pe.totalSharesAfter := by
    intro h
    rw [processEvent_acq ecb eng ev h]
    refine ⟨?_, ?_⟩
    · simpa [recordResult, processAcquisition] using add_nonneg hS hsh
    · intro pe hpe
      simp [recordResult, processAcquisition] at hpe
      rcases hpe with hpe | hpe
      · exact hh pe hpe
      · rw [hpe]
        simpa using add_nonneg hS hsh
  cases hty : ev.eventType with
  | VEST => exact hacq (Or.inl hty)
  | BUY => exact hacq (Or.inr hty)
  | SELL =>
    rw [processEvent_sell ecb eng ev hty]
    by_cases hlt : eng.state.totalShares < ev.shares
    · have herr : processSell ecb eng.state ev =
          Except.error (TaxError.inventoryExceeded ev.eventDate ev.shares
            eng.state.totalShares) := by
        unfold processSell
        rw [if_pos hlt]
      rw [herr]
      exact ⟨hS, hh⟩
    · rw [processSell_eq_ok ecb eng.state ev (not_lt.mp hlt)]
      have hq : 0 ≤ eng.state.totalShares - ev.shares := sub_nonneg.mpr (not_lt.mp hlt)
      by_cases h0 : eng.state.totalShares - ev.shares = 0
      · refine ⟨by simp [recordResult, h0], ?_⟩
        intro pe hpe
        simp [recordResult, h0] at hpe
        rcases hpe with hpe | hpe
        · exact hh pe hpe
        · simp [hpe]
      · refine ⟨by simpa [recordResult, h0] using hq, ?_⟩
        intro pe hpe
        simp [recordResult, h0] at hpe
        rcases hpe with hpe | hpe
        · exact hh pe hpe
        · rw [hpe]
          simpa using hq

lemma processAllAux_inv (ecb : Date → ℚ) (evs : List StockEvent) :
    ∀ eng : TaxEngine, (∀ e ∈ evs, 0 ≤ e.shares) →
    0 ≤ eng.state.totalShares →
    (∀ pe ∈ eng.processedEvents, 0 ≤ pe.totalSharesAfter) →
    0 ≤ ((processAllAux ecb eng evs).1).state.totalShares ∧
      ∀ pe ∈ ((processAllAux ecb eng evs).1).processedEvents, 0 ≤ pe.totalSharesAfter := by
  induction evs with
  | nil => exact fun eng _ hS hh => ⟨hS, hh⟩
  | cons e evs ih =>
    intro eng hsh hS hh
    have hstep := processEvent_inv ecb eng e (hsh e (List.mem_cons_self e evs)) hS hh
    unfold processAllAux
    cases hpe : processEvent ecb eng e with
    | mk eng2 res =>
      rw [hpe] at hstep
      cases res with
      | ok pe => exact ih eng2 (fun x hx => hsh x (List.mem_cons_of_mem e hx)) hstep.1 hstep.2
      | error err => exact hstep

lemma processAll_fst (ecb : Date → ℚ) (evs : List StockEvent) :
    (processAll ecb evs).1 = (processAllAux ecb initEngine (sortEvents evs)).1 := by
  unfold processAll
  rcases h : processAllAux ecb initEngine (sortEvents evs) with ⟨eng, res⟩
  cases res <;> rfl

/-- C6: the depot invariant. A single processed event (successful or not)
keeps the held share count and every recorded post-event share count
nonnegative, and a `process_all` run over events with nonnegative share
quantities leaves a history in which every post-event share count is
nonnegative and a nonnegative final position. -/
theorem c6_depot_invariant :
    (∀ (ecb : Date → ℚ) (eng : TaxEngine) (ev : StockEvent),
      0 ≤ ev.shares →
      0 ≤ eng.state.totalShares →
      (∀ pe ∈ eng.processedEvents, 0 ≤ pe.totalSharesAfter) →
      0 ≤ ((processEvent ecb eng ev).1).state.totalShares ∧
        ∀ pe ∈ ((processEvent ecb eng ev).1).processedEvents, 0 ≤ pe.totalSharesAfter) ∧
    (∀ (ecb : Date → ℚ) (events : List StockEvent),
      (∀ e ∈ events, 0 ≤ e.shares) →
      0 ≤ ((processAll ecb events).1).state.totalShares ∧
        ∀ pe ∈ ((processAll ecb events).1).processedEvents, 0 ≤ pe.totalSharesAfter) := by
  refine ⟨processEvent_inv, fun ecb events hsh => ?_⟩
  rw [processAll_fst]
  refine processAllAux_inv ecb (sortEvents events) initEngine ?_ ?_ ?_
  · exact fun e he => hsh e ((sortEvents_perm events).mem_iff.mp he)
  · norm_num [initEngine]
  · simp [initEngine]

/-- C6 witness: the invariant instantiated on the same-day vest-and-sell
sample batch. -/
theorem c6_depot_invariant_witness :
    (∀ e ∈ [evVest50, evSell20], (0:ℚ) ≤ e.shares) ∧
    (0 ≤ ((processAll ecb0 [evVest50, evSell20]).1).state.totalShares ∧
      ∀ pe ∈ ((processAll ecb0 [evVest50, evSell20]).1).processedEvents,
        0 ≤ pe.totalSharesAfter) := by
  have hsh : ∀ e ∈ [evVest50, evSell20], (0:ℚ) ≤ e.shares := by
    intro e he
    simp [evVest50, evSell20] at he
    rcases he with rfl | rfl <;> norm_num [evVest50, evSell20]
  exact ⟨hsh, c6_depot_invariant.2 ecb0 [evVest50, evSell20] hsh⟩

lemma processEvent_sell_err (ecb : Date → ℚ) (eng : TaxEngine) (ev : StockEvent)
    (e : TaxError) (h : ev.eventType = EventType.SELL)
    (herr : processSell ecb eng.state ev = Except.error e) :
    processEvent ecb eng ev = (eng, Except.error e) := by
  rw [processEvent_sell ecb eng ev h, herr]

lemma processEvent_sell_okr (ecb : Date → ℚ) (eng : TaxEngine) (ev : StockEvent)
    (r : TaxEngineState × ProcessedEvent) (h : ev.eventType = EventType.SELL)
    (hr : processSell ecb eng.state ev = Except.ok r) :
    processEvent ecb eng ev = (recordResult eng r.1 ev r.2, Except.ok r.2) := by
  rw [processEvent_sell ecb eng ev h, hr]

/-- C5: each successfully processed event updates only the summary of its
calendar year, adding a positive realized gain/loss to total_gains, a
negative one to total_losses and leaving both untouched when it is zero; the
derived quantities are net = gains + losses, taxable = max(0, net) and
tax due = round2(taxable * 0.275); the year (530.98, -39.05) owes 135.28 and
a pure-loss year (0, -1890.84) owes 0, the loss reaching no other year. -/
theorem c5_yearly_tax_summary :
    (∀ (ecb : Date → ℚ) (eng : TaxEngine) (ev : StockEvent) (pe : ProcessedEvent),
      (processEvent ecb eng ev).2 = Except.ok pe →
      (alookup ((processEvent ecb eng ev).1).yearlySummaries ev.eventDate.year).map
          (fun s => (s.totalGains, s.totalLosses)) =
        some
          (((alookup eng.yearlySummaries ev.eventDate.year).getD
              ⟨ev.eventDate.year, 0, 0⟩).totalGains +
            (if 0 < pe.realizedGainLoss then pe.realizedGainLoss else 0),
           ((alookup eng.yearlySummaries ev.eventDate.year).getD
              ⟨ev.eventDate.year, 0, 0⟩).totalLosses +
            (if pe.realizedGainLoss < 0 then pe.realizedGainLoss else 0)) ∧
      (∀ y2 : ℕ, y2 ≠ ev.eventDate.year →
        alookup ((processEvent ecb eng ev).1).yearlySummaries y2 =
          alookup eng.yearlySummaries y2)) ∧
    (∀ s : YearlyTaxSummary,
      s.netGainLoss = s.totalGains + s.totalLosses ∧
      s.taxableGain = max 0 s.netGainLoss ∧
      s.kestDue = round2 (s.taxableGain * (275/1000))) ∧
    ((⟨2021, 53098/100, -(3905/100)⟩ : YearlyTaxSummary).netGainLoss = 49193/100 ∧
     (⟨2021, 53098/100, -(3905/100)⟩ : YearlyTaxSummary).taxableGain = 49193/100 ∧
     (⟨2021, 53098/100, -(3905/100)⟩ : YearlyTaxSummary).kestDue = 13528/100) ∧
    ((⟨2022, 0, -(189084/100)⟩ : YearlyTaxSummary).taxableGain = 0 ∧
     (⟨2022, 0, -(189084/100)⟩ : YearlyTaxSummary).kestDue = 0) := by
  refine ⟨?_, fun s => ⟨rfl, rfl, rfl⟩, ⟨?_, ?_, ?_⟩, ⟨?_, ?_⟩⟩
  · intro ecb eng ev pe hok
    have hacq : (ev.eventType = EventType.VEST ∨ ev.eventType = EventType.BUY) →
        (alookup ((processEvent ecb eng ev).1).yearlySummaries ev.eventDate.year).map
            (fun s => (s.totalGains, s.totalLosses)) =
          some
            (((alookup eng.yearlySummaries ev.eventDate.year).getD
                ⟨ev.eventDate.year, 0, 0⟩).totalGains +
              (if 0 < pe.realizedGainLoss then pe.realizedGainLoss else 0),
             ((alookup eng.yearlySummaries ev.eventDate.year).getD
                ⟨ev.eventDate.year, 0, 0⟩).totalLosses +
              (if pe.realizedGainLoss < 0 then pe.realizedGainLoss else 0)) ∧
          (∀ y2 : ℕ, y2 ≠ ev.eventDate.year →
            alookup ((processEvent ecb eng ev).1).yearlySummaries y2 =
              alookup eng.yearlySummaries y2) := by
      intro h
      rw [processEvent_acq ecb eng ev h] at hok ⊢
      simp only [Except.ok.injEq] at hok
      dsimp only
      rw [← hok]
      exact ⟨recordResult_summary _ _ _ _,
        fun y2 hy => recordResult_summary_other _ _ _ _ _ hy⟩
    cases hty : ev.eventType with
    | VEST => exact hacq (Or.inl hty)
    | BUY => exact hacq (Or.inr hty)
    | SELL =>
      cases hps : processSell ecb eng.state ev with
      | error e =>
        rw [processEvent_sell_err ecb eng ev e hty hps] at hok
        simp at hok
      | ok r =>
        rw [processEvent_sell_okr ecb eng ev r hty hps] at hok ⊢
        simp only [Except.ok.injEq] at hok
        dsimp only
        rw [← hok]
        exact ⟨recordResult_summary _ _ _ _,
          fun y2 hy => recordResult_summary_other _ _ _ _ _ hy⟩
  · norm_num [YearlyTaxSummary.netGainLoss]
  · norm_num [YearlyTaxSummary.taxableGain, YearlyTaxSummary.netGainLoss, max_def]
  · norm_num [YearlyTaxSummary.kestDue, YearlyTaxSummary.taxableGain,
      YearlyTaxSummary.netGainLoss, max_def, round2, halfUpInt]
  · norm_num [YearlyTaxSummary.taxableGain, YearlyTaxSummary.netGainLoss, max_def]
  · norm_num [YearlyTaxSummary.kestDue, YearlyTaxSummary.taxableGain,
      YearlyTaxSummary.netGainLoss, max_def, round2, halfUpInt]

/-- C5 witness: the summary-update rule applied to the concrete gain-realizing
sale `evSell20` from the `engVest50` position. -/
theorem c5_yearly_tax_summary_witness :
    (processEvent ecb0 engVest50 evSell20).2 = Except.ok peSell20 ∧
    ((alookup ((processEvent ecb0 engVest50 evSell20).1).yearlySummaries
        evSell20.eventDate.year).map (fun s => (s.totalGains, s.totalLosses)) =
      some
        (((alookup engVest50.yearlySummaries evSell20.eventDate.year).getD
            ⟨evSell20.eventDate.year, 0, 0⟩).totalGains +
          (if 0 < peSell20.realizedGainLoss then peSell20.realizedGainLoss else 0),
         ((alookup engVest50.yearlySummaries evSell20.eventDate.year).getD
            ⟨evSell20.eventDate.year, 0, 0⟩).totalLosses +
          (if peSell20.realizedGainLoss < 0 then peSell20.realizedGainLoss else 0)) ∧
     (∀ y2 : ℕ, y2 ≠ evSell20.eventDate.year →
       alookup ((processEvent ecb0 engVest50 evSell20).1).yearlySummaries y2 =
         alookup engVest50.yearlySummaries y2)) := by
  have hok : (processEvent ecb0 engVest50 evSell20).2 = Except.ok peSell20 := by
    norm_num [engVest50, evVest50, evSell20, peSell20, processEvent, processAcquisition,
      processSell, recordResult, StockEvent.totalValueEur, StockEvent.priceEur,
      StockEvent.resolvedFxRate, initEngine, ensureYear, addGain, addLoss, alookup,
      round4, halfUpInt]
  exact ⟨hok, c5_yearly_tax_summary.1 ecb0 engVest50 evSell20 peSell20 hok⟩

lemma mem_dateRange {lo hi d : ℤ} : d ∈ dateRange lo hi ↔ lo ≤ d ∧ d ≤ hi := by
  unfold dateRange
  constructor
  · intro hd
    obtain ⟨i, hi2, hid⟩ := List.mem_map.mp hd
    rw [List.mem_range] at hi2
    subst hid
    rcases le_or_lt lo (hi + 1) with hcase | hcase
    · have hn : ((hi + 1 - lo).toNat : ℤ) = hi + 1 - lo := Int.toNat_of_nonneg (by omega)
      have hi3 : ((i : ℤ)) < hi + 1 - lo := by
        rw [← hn]
        exact_mod_cast hi2
      constructor <;> omega
    · have hz : (hi + 1 - lo).toNat = 0 := Int.toNat_of_nonpos (by omega)
      rw [hz] at hi2
      exact absurd hi2 (Nat.not_lt_zero i)
  · intro ⟨h1, h2⟩
    have h3 : ((d - lo).toNat : ℤ) = d - lo := Int.toNat_of_nonneg (by omega)
    have h4 : ((hi + 1 - lo).toNat : ℤ) = hi + 1 - lo := Int.toNat_of_nonneg (by omega)
    refine List.mem_map.mpr ⟨(d - lo).toNat, List.mem_range.mpr ?_, ?_⟩
    · have h5 : ((d - lo).toNat : ℤ) < ((hi + 1 - lo).toNat : ℤ) := by
        rw [h3, h4]
        omega
      exact_mod_cast h5
    · rw [h3]
      omega

lemma mem_ratesIn {pub : ℤ → Option ℚ} {lo hi d : ℤ} {r : ℚ} :
    (d, r) ∈ ratesIn pub lo hi ↔
      lo ≤ d ∧ d ≤ hi ∧ ∃ v, pub d = some v ∧ r = round4 (1 / v) := by
  unfold ratesIn
  rw [List.mem_filterMap]
  constructor
  · rintro ⟨a, ha, hf⟩
    rw [Option.map_eq_some'] at hf
    obtain ⟨v, hv, heq⟩ := hf
    rw [Prod.mk.injEq] at heq
    obtain ⟨rfl, hr⟩ := heq
    have hb := mem_dateRange.mp ha
    exact ⟨hb.1, hb.2, v, hv, hr.symm⟩
  · rintro ⟨h1, h2, v, hv, rfl⟩
    exact ⟨d, mem_dateRange.mpr ⟨h1, h2⟩, by rw [hv]; rfl⟩

lemma alookup_ratesInAux (pub : ℤ → Option ℚ) (l : List ℤ) (d : ℤ) :
    alookup (l.filterMap (fun x => (pub x).map (fun v => (x, round4 (1 / v))))) d =
      if d ∈ l then (pub d).map (fun v => round4 (1 / v)) else none := by
  induction l with
  | nil => simp [alookup]
  | cons x xs ih =>
    cases hx : pub x with
    | none =>
      rw [List.filterMap_cons_none (by simp [hx]), ih]
      by_cases hdx : d = x
      · subst hdx
        simp [hx]
      · simp [List.mem_cons, hdx]
    | some v =>
      rw [show List.filterMap (fun x => (pub x).map (fun v => (x, round4 (1 / v))))
            (x :: xs) =
          (x, round4 (1 / v)) ::
            List.filterMap (fun x => (pub x).map (fun v => (x, round4 (1 / v)))) xs from by
        simp [hx]]
      rw [alookup_cons]
      by_cases hdx : x = d
      · subst hdx
        simp [hx]
      · rw [if_neg hdx, ih]
        simp [List.mem_cons, Ne.symm hdx]

lemma alookup_ratesIn (pub : ℤ → Option ℚ) (lo hi d : ℤ) :
    alookup (ratesIn pub lo hi) d =
      if lo ≤ d ∧ d ≤ hi then (pub d).map (fun v => round4 (1 / v)) else none := by
  unfold ratesIn
  rw [alookup_ratesInAux]
  by_cases h : lo ≤ d ∧ d ≤ hi
  · rw [if_pos (mem_dateRange.mpr h), if_pos h]
  · rw [if_neg (fun hmem => h (mem_dateRange.mp hmem)), if_neg h]

lemma nob_forall_of_none (t : ℤ) :
    ∀ l : List (ℤ × ℚ), nearestOnOrBefore t l = none → ∀ p ∈ l, ¬(p.1 ≤ t) := by
  intro l
  induction l with
  | nil => intro _ p hp; simp at hp
  | cons p ps ih =>
    intro h q hq
    unfold nearestOnOrBefore at h
    cases hr : nearestOnOrBefore t ps with
    | none =>
      rw [hr] at h
      by_cases hp : p.1 ≤ t
      · rw [if_pos hp] at h
        simp at h
      · rcases List.mem_cons.mp hq with rfl | hq2
        · exact hp
        · exact ih hr q hq2
    | some q0 =>
      rw [hr] at h
      dsimp only at h
      by_cases hc : p.1 ≤ t ∧ q0.1 < p.1
      · rw [if_pos hc] at h
        simp at h
      · rw [if_neg hc] at h
        simp at h

lemma nob_some (t : ℤ) :
    ∀ (l : List (ℤ × ℚ)) (q : ℤ × ℚ), nearestOnOrBefore t l = some q →
      q ∈ l ∧ q.1 ≤ t ∧ ∀ p ∈ l, p.1 ≤ t → p.1 ≤ q.1 := by
  intro l
  induction l with
  | nil => intro q h; simp [nearestOnOrBefore] at h
  | cons p ps ih =>
    intro q h
    unfold nearestOnOrBefore at h
    cases hr : nearestOnOrBefore t ps with
    | none =>
      rw [hr] at h
      by_cases hp : p.1 ≤ t
      · rw [if_pos hp] at h
        simp only [Option.some.injEq] at h
        subst h
        refine ⟨List.mem_cons_self _ _, hp, ?_⟩
        intro p2 hp2 hp2t
        rcases List.mem_cons.mp hp2 with rfl | hp2
        · exact le_refl _
        · exact absurd hp2t (nob_forall_of_none t ps hr p2 hp2)
      · rw [if_neg hp] at h
        simp at h
    | some q0 =>
      rw [hr] at h
      dsimp only at h
      obtain ⟨hmem, hle, hmax⟩ := ih q0 hr
      by_cases hc : p.1 ≤ t ∧ q0.1 < p.1
      · rw [if_pos hc] at h
        simp only [Option.some.injEq] at h
        subst h
        refine ⟨List.mem_cons_self _ _, hc.1, ?_⟩
        intro p2 hp2 hp2t
        rcases List.mem_cons.mp hp2 with rfl | hp2
        · exact le_refl _
        · exact le_trans (hmax p2 hp2 hp2t) (le_of_lt hc.2)
      · rw [if_neg hc] at h
        simp only [Option.some.injEq] at h
        subst h
        refine ⟨List.mem_cons_of_mem p hmem, hle, ?_⟩
        intro p2 hp2 hp2t
        rcases List.mem_cons.mp hp2 with rfl | hp2
        · exact not_lt.mp (fun hlt => hc ⟨hp2t, hlt⟩)
        · exact hmax p2 hp2 hp2t

lemma nob_ratesIn_eq (pub : ℤ → Option ℚ) (lo hi t d : ℤ) (v : ℚ)
    (hlo : lo ≤ d) (hdt : d ≤ t) (hdhi : d ≤ hi) (hv : pub d = some v)
    (hmax : ∀ d2, d < d2 → d2 ≤ t → d2 ≤ hi → pub d2 = none) :
    nearestOnOrBefore t (ratesIn pub lo hi) = some (d, round4 (1 / v)) := by
  have hmem : (d, round4 (1 / v)) ∈ ratesIn pub lo hi :=
    mem_ratesIn.mpr ⟨hlo, hdhi, v, hv, rfl⟩
  cases hr : nearestOnOrBefore t (ratesIn pub lo hi) with
  | none => exact absurd hdt (nob_forall_of_none t _ hr (d, round4 (1 / v)) hmem)
  | some q =>
    obtain ⟨hqmem, hqt, hqmax⟩ := nob_some t _ q hr
    have hqmem2 : (q.1, q.2) ∈ ratesIn pub lo hi := by simpa using hqmem
    obtain ⟨hqlo, hqhi, w, hw, hq2⟩ := mem_ratesIn.mp hqmem2
    have hdle : d ≤ q.1 := hqmax (d, round4 (1 / v)) hmem hdt
    have hq1 : q.1 = d := by
      rcases lt_or_eq_of_le hdle with hlt | heq
      · rw [hmax q.1 hlt hqt hqhi] at hw
        exact absurd hw (by simp)
      · exact heq.symm
    have hvw : w = v := by
      rw [hq1] at hw
      rw [hw] at hv
      exact (Option.some.injEq _ _).mp hv
    have hqeq : q = (d, round4 (1 / v)) := by
      rw [← hq1, ← hvw]
      exact Prod.ext rfl hq2
  -- hmm Prod.ext usage: q = (q.1, q.2) with hq2 : q.2 = round4 (1/w)
    rw [hqeq]

lemma getRate_miss_ok (pub : ℤ → Option ℚ) (cache : RateCache) (target : ℤ)
    (hc : cache target = none) :
    getRate (Except.ok pub) cache target =
      (match alookup (ratesIn pub (target - 10) target) target with
       | some r => (Except.ok r, cacheUpdate cache (ratesIn pub (target - 10) target))
       | none =>
         match nearestOnOrBefore target (ratesIn pub (target - 10) target) with
         | some p => (Except.ok p.2,
             cacheInsert (cacheUpdate cache (ratesIn pub (target - 10) target)) target p.2)
         | none => (Except.error (RateError.lookupError target),
             cacheUpdate cache (ratesIn pub (target - 10) target))) := by
  unfold getRate
  rw [hc]
  rfl

lemma getRate_most_recent (pub : ℤ → Option ℚ) (cache : RateCache) (target d : ℤ)
    (v : ℚ) (hc : cache target = none) (hpt : pub target = none)
    (hlo : target - 10 ≤ d) (hdt : d ≤ target) (hv : pub d = some v)
    (hmax : ∀ d2, d < d2 → d2 ≤ target → pub d2 = none) :
    (getRate (Except.ok pub) cache target).1 = Except.ok (round4 (1 / v)) := by
  rw [getRate_miss_ok pub cache target hc]
  have h1 : alookup (ratesIn pub (target - 10) target) target = none := by
    rw [alookup_ratesIn]
    simp [hpt]
  rw [h1]
  have h2 : nearestOnOrBefore target (ratesIn pub (target - 10) target) =
      some (d, round4 (1 / v)) :=
    nob_ratesIn_eq pub (target - 10) target target d v hlo hdt hdt hv
      (fun d2 hd2 hd2t _ => hmax d2 hd2 hd2t)
  rw [h2]

lemma getRate_window_empty (pub : ℤ → Option ℚ) (cache : RateCache) (target : ℤ)
    (hc : cache target = none)
    (hall : ∀ d, target - 10 ≤ d → d ≤ target → pub d = none) :
    (getRate (Except.ok pub) cache target).1 =
      Except.error (RateError.lookupError target) := by
  rw [getRate_miss_ok pub cache target hc]
  have h1 : alookup (ratesIn pub (target - 10) target) target = none := by
    rw [alookup_ratesIn]
    simp [hall target (by omega) (le_refl target)]
  rw [h1]
  have h2 : nearestOnOrBefore target (ratesIn pub (target - 10) target) = none := by
    cases hnn : nearestOnOrBefore target (ratesIn pub (target - 10) target) with
    | none => rfl
    | some q =>
      obtain ⟨hqmem, hqt, _⟩ := nob_some target _ q hnn
      have hqmem2 : (q.1, q.2) ∈ ratesIn pub (target - 10) target := by simpa using hqmem
      obtain ⟨hqlo, hqhi, w, hw, _⟩ := mem_ratesIn.mp hqmem2
      rw [hall q.1 hqlo hqhi] at hw
      exact absurd hw (by simp)
  rw [h2]

lemma getRate_fetch_fail (e : String) (cache : RateCache) (target : ℤ)
    (hc : cache target = none) :
    getRate (Except.error e) cache target =
      (Except.error (RateError.fetchError e), cache) := by
  unfold getRate
  rw [hc]
  rfl

/-- C7 (amended): on a cache miss for a date with no published rate, get_rate
fetches exactly the fixed ten-day window [date - 10, date] and returns the
inverted rate of the most recent published date on or before the requested
date inside that window; if the window holds no published rate at all it
fails with the lookup error naming the date - the window is never widened. -/
theorem c7_rate_fallback (pub : ℤ → Option ℚ) (cache : RateCache) (target : ℤ)
    (hc : cache target = none) (hpt : pub target = none) :
    (∀ (d : ℤ) (v : ℚ), target - 10 ≤ d → d ≤ target → pub d = some v →
      (∀ d2, d < d2 → d2 ≤ target → pub d2 = none) →
      (getRate (Except.ok pub) cache target).1 = Except.ok (round4 (1 / v))) ∧
    ((∀ d, target - 10 ≤ d → d ≤ target → pub d = none) →
      (getRate (Except.ok pub) cache target).1 =
        Except.error (RateError.lookupError target)) :=
  ⟨fun d v hlo hdt hv hmax => getRate_most_recent pub cache target d v hc hpt hlo hdt hv hmax,
   fun hall => getRate_window_empty pub cache target hc hall⟩

/-- C7 counterexample: the only published rate sits eleven days before the
requested date; the claimed widening would find it, but get_rate raises the
lookup error. -/
theorem c7_rate_fallback_counterexample :
    pubFar (-11) = some 1 ∧ (-11 : ℤ) ≤ 0 ∧
    (getRate (Except.ok pubFar) emptyCache 0).1 =
      Except.error (RateError.lookupError 0) := by
  refine ⟨rfl, by norm_num, ?_⟩
  refine getRate_window_empty pubFar emptyCache 0 rfl ?_
  intro d h1 h2
  unfold pubFar
  rw [if_neg (by omega)]

/-- C7 witness: a published rate 1.25 three days back resolves the origin
date to round4(1 / 1.25) = 0.8. -/
theorem c7_rate_fallback_witness :
    emptyCache 0 = none ∧ pubNear 0 = none ∧
    (0 : ℤ) - 10 ≤ -3 ∧ (-3 : ℤ) ≤ 0 ∧ pubNear (-3) = some (5/4) ∧
    (getRate (Except.ok pubNear) emptyCache 0).1 = Except.ok (round4 (1 / (5/4))) := by
  refine ⟨rfl, rfl, by norm_num, by norm_num, rfl, ?_⟩
  refine (c7_rate_fallback pubNear emptyCache 0 rfl rfl).1 (-3) (5/4)
    (by norm_num) (by norm_num) rfl ?_
  intro d2 h1 h2
  unfold pubNear
  rw [if_neg (by omega)]

/-- C9: the resolver separates its two failure modes: an unreachable upstream
yields the fetch error (a different constructor from the lookup error, so the
two are never equal), while a reachable upstream with an empty look-back
window yields the lookup error naming the date. -/
theorem c9_error_kinds :
    (∀ (s : String) (d : ℤ), RateError.fetchError s ≠ RateError.lookupError d) ∧
    (∀ (e : String) (cache : RateCache) (target : ℤ),
      cache target = none →
      getRate (Except.error e) cache target =
        (Except.error (RateError.fetchError e), cache)) ∧
    (∀ (pub : ℤ → Option ℚ) (cache : RateCache) (target : ℤ),
      cache target = none →
      (∀ d, target - 10 ≤ d → d ≤ target → pub d = none) →
      (getRate (Except.ok pub) cache target).1 =
        Except.error (RateError.lookupError target)) := by
  refine ⟨fun s d h => ?_, getRate_fetch_fail, getRate_window_empty⟩
  cases h

/-- C9 witness: a concrete unreachable upstream produces the fetch error and
a concrete reachable-but-empty window produces the lookup error. -/
theorem c9_error_kinds_witness :
    emptyCache 0 = none ∧
    getRate (Except.error sampleMsg) emptyCache 0 =
      (Except.error (RateError.fetchError sampleMsg), emptyCache) ∧
    (getRate (Except.ok pubFar) emptyCache 0).1 =
      Except.error (RateError.lookupError 0) := by
  refine ⟨rfl, c9_error_kinds.2.1 sampleMsg emptyCache 0 rfl, ?_⟩
  refine c9_error_kinds.2.2 pubFar emptyCache 0 rfl ?_
  intro d h1 h2
  unfold pubFar
  rw [if_neg (by omega)]

lemma foldl_min_le_init (l : List ℤ) : ∀ a : ℤ, l.foldl min a ≤ a := by
  induction l with
  | nil => exact fun a => le_refl a
  | cons b l ih => exact fun a => le_trans (ih (min a b)) (min_le_left a b)

lemma foldl_min_le_mem (l : List ℤ) : ∀ (a x : ℤ), x ∈ l → l.foldl min a ≤ x := by
  induction l with
  | nil => intro a x hx; simp at hx
  | cons b l ih =>
    intro a x hx
    rcases List.mem_cons.mp hx with rfl | hx2
    · exact le_trans (foldl_min_le_init l (min a x)) (min_le_right a x)
    · exact ih (min a b) x hx2

lemma init_le_foldl_max (l : List ℤ) : ∀ a : ℤ, a ≤ l.foldl max a := by
  induction l with
  | nil => exact fun a => le_refl a
  | cons b l ih => exact fun a => le_trans (le_max_left a b) (ih (max a b))

lemma mem_le_foldl_max (l : List ℤ) : ∀ (a x : ℤ), x ∈ l → x ≤ l.foldl max a := by
  induction l with
  | nil => intro a x hx; simp at hx
  | cons b l ih =>
    intro a x hx
    rcases List.mem_cons.mp hx with rfl | hx2
    · exact le_trans (le_max_right a x) (init_le_foldl_max l (max a x))
    · exact ih (max a b) x hx2

lemma listMin_le {dates : List ℤ} {t : ℤ} (h : t ∈ dates) : listMin dates ≤ t := by
  cases dates with
  | nil => simp at h
  | cons a l =>
    rcases List.mem_cons.mp h with rfl | h2
    · exact foldl_min_le_init l t
    · exact foldl_min_le_mem l a t h2

lemma le_listMax {dates : List ℤ} {t : ℤ} (h : t ∈ dates) : t ≤ listMax dates := by
  cases dates with
  | nil => simp at h
  | cons a l =>
    rcases List.mem_cons.mp h with rfl | h2
    · exact init_le_foldl_max l t
    · exact mem_le_foldl_max l a t h2

lemma bulkAssign_cache_published (rates : List (ℤ × ℚ)) :
    ∀ (ts : List ℤ) (cache : RateCache) (acc : List (ℤ × ℚ)) (x : ℤ),
      alookup rates x ≠ none →
      (bulkAssign rates ts cache acc).2 x = cache x := by
  intro ts
  induction ts with
  | nil => intro cache acc x _; rfl
  | cons t ts ih =>
    intro cache acc x hx
    unfold bulkAssign
    cases h1 : alookup rates t with
    | some r =>
      dsimp only
      exact ih cache (acc ++ [(t, r)]) x hx
    | none =>
      cases h2 : nearestOnOrBefore t rates with
      | some p =>
        dsimp only
        rw [ih (cacheInsert cache t p.2) (acc ++ [(t, p.2)]) x hx]
        unfold cacheInsert
        rw [if_neg (fun he => hx (by rw [he]; exact h1))]
      | none => rfl

lemma bulkAssign_cache_not_mem (rates : List (ℤ × ℚ)) :
    ∀ (ts : List ℤ) (cache : RateCache) (acc : List (ℤ × ℚ)) (x : ℤ),
      x ∉ ts → (bulkAssign rates ts cache acc).2 x = cache x := by
  intro ts
  induction ts with
  | nil => intro cache acc x _; rfl
  | cons t ts ih =>
    intro cache acc x hx
    have hxt : x ≠ t := fun he => hx (he ▸ List.mem_cons_self t ts)
    have hxts : x ∉ ts := fun he => hx (List.mem_cons_of_mem t he)
    unfold bulkAssign
    cases h1 : alookup rates t with
    | some r =>
      dsimp only
      exact ih cache (acc ++ [(t, r)]) x hxts
    | none =>
      cases h2 : nearestOnOrBefore t rates with
      | some p =>
        dsimp only
        rw [ih (cacheInsert cache t p.2) (acc ++ [(t, p.2)]) x hxts]
        unfold cacheInsert
        rw [if_neg hxt]
      | none => rfl

lemma bulkAssign_cache_fallback (rates : List (ℤ × ℚ)) :
    ∀ (ts : List ℤ), (∀ t ∈ ts, (ratesFor rates t).isSome = true) →
      ∀ (cache : RateCache) (acc : List (ℤ × ℚ)) (x : ℤ) (p : ℤ × ℚ),
      x ∈ ts → alookup rates x = none → nearestOnOrBefore x rates = some p →
      (bulkAssign rates ts cache acc).2 x = some p.2 := by
  intro ts
  induction ts with
  | nil => intro _ cache acc x p hx; simp at hx
  | cons t ts ih =>
    intro hall cache acc x p hx hnone hnob
    have htail : ∀ t2 ∈ ts, (ratesFor rates t2).isSome = true :=
      fun t2 ht2 => hall t2 (List.mem_cons_of_mem t ht2)
    unfold bulkAssign
    cases h1 : alookup rates t with
    | some r =>
      dsimp only
      rcases List.mem_cons.mp hx with rfl | hx2
      · rw [h1] at hnone
        exact absurd hnone (by simp)
      · exact ih htail cache (acc ++ [(t, r)]) x p hx2 hnone hnob
    | none =>
      cases h2 : nearestOnOrBefore t rates with
      | some q =>
        dsimp only
        by_cases hx2 : x ∈ ts
        · exact ih htail (cacheInsert cache t q.2) (acc ++ [(t, q.2)]) x p hx2 hnone hnob
        · have hxt : x = t := by
            rcases List.mem_cons.mp hx with rfl | hmem
            · rfl
            · exact absurd hmem hx2
          subst hxt
          rw [bulkAssign_cache_not_mem rates ts (cacheInsert cache x q.2)
            (acc ++ [(x, q.2)]) x hx2]
          unfold cacheInsert
          rw [if_pos rfl]
          rw [h2] at hnob
          rw [(Option.some.injEq _ _).mp hnob]
      | none =>
        exfalso
        have hsome := hall t (List.mem_cons_self t ts)
        unfold ratesFor at hsome
        rw [h1, h2] at hsome
        simp at hsome

lemma bulkAssign_result (rates : List (ℤ × ℚ)) :
    ∀ (ts : List ℤ), (∀ t ∈ ts, (ratesFor rates t).isSome = true) →
      ∀ (cache : RateCache) (acc : List (ℤ × ℚ)),
      ∃ res : List (ℤ × ℚ),
        (bulkAssign rates ts cache acc).1 = Except.ok res ∧
        (∀ (x : ℤ) (r : ℚ), alookup acc x = some r → alookup res x = some r) ∧
        (∀ t ∈ ts, alookup acc t = none →
          ∀ r : ℚ, ratesFor rates t = some r → alookup res t = some r) := by
  intro ts
  induction ts with
  | nil =>
    intro _ cache acc
    exact ⟨acc, rfl, fun x r h => h, fun t ht => absurd ht (List.not_mem_nil t)⟩
  | cons t ts ih =>
    intro hall cache acc
    have htail : ∀ t2 ∈ ts, (ratesFor rates t2).isSome = true :=
      fun t2 ht2 => hall t2 (List.mem_cons_of_mem t ht2)
    unfold bulkAssign
    cases h1 : alookup rates t with
    | some r =>
      dsimp only
      obtain ⟨res, hres, hpres, hnew⟩ := ih htail cache (acc ++ [(t, r)])
      have hrt : ratesFor rates t = some r := by
        unfold ratesFor
        rw [h1]
      refine ⟨res, hres, ?_, ?_⟩
      · intro x rx hxl
        apply hpres
        rw [alookup_append, hxl]
      · intro t0 ht0 hacc r0 hr0
        by_cases hteq : t0 = t
        · subst hteq
          rw [hrt] at hr0
          obtain rfl := (Option.some.injEq _ _).mp hr0
          apply hpres
          rw [alookup_append, hacc, alookup_cons]
          rw [if_pos rfl]
        · rcases List.mem_cons.mp ht0 with rfl | ht02
          · exact absurd rfl hteq
          · apply hnew t0 ht02 _ r0 hr0
            rw [alookup_append, hacc, alookup_cons]
            rw [if_neg (fun he => hteq he.symm)]
            rfl
    | none =>
      cases h2 : nearestOnOrBefore t rates with
      | some p =>
        dsimp only
        obtain ⟨res, hres, hpres, hnew⟩ := ih htail (cacheInsert cache t p.2) (acc ++ [(t, p.2)])
        have hrt : ratesFor rates t = some p.2 := by
          unfold ratesFor
          rw [h1, h2]
          rfl
        refine ⟨res, hres, ?_, ?_⟩
        · intro x rx hxl
          apply hpres
          rw [alookup_append, hxl]
        · intro t0 ht0 hacc r0 hr0
          by_cases hteq : t0 = t
          · subst hteq
            rw [hrt] at hr0
            obtain rfl := (Option.some.injEq _ _).mp hr0
            apply hpres
            rw [alookup_append, hacc, alookup_cons]
            rw [if_pos rfl]
          · rcases List.mem_cons.mp ht0 with rfl | ht02
            · exact absurd rfl hteq
            · apply hnew t0 ht02 _ r0 hr0
              rw [alookup_append, hacc, alookup_cons]
              rw [if_neg (fun he => hteq he.symm)]
              rfl
      | none =>
        exfalso
        have hsome := hall t (List.mem_cons_self t ts)
        unfold ratesFor at hsome
        rw [h1, h2] at hsome
        simp at hsome

lemma bulkAssign_fail (rates : List (ℤ × ℚ)) :
    ∀ (ts : List ℤ) (cache : RateCache) (acc : List (ℤ × ℚ)),
      (∃ t ∈ ts, ratesFor rates t = none) →
      ∃ t2 ∈ ts, (bulkAssign rates ts cache acc).1 =
        Except.error (RateError.lookupError t2) := by
  intro ts
  induction ts with
  | nil =>
    intro cache acc ⟨t, ht, _⟩
    simp at ht
  | cons t ts ih =>
    intro cache acc ⟨t0, ht0, hfail⟩
    unfold bulkAssign
    cases h1 : alookup rates t with
    | some r =>
      dsimp only
      have ht02 : t0 ∈ ts := by
        rcases List.mem_cons.mp ht0 with rfl | h
        · exfalso
          unfold ratesFor at hfail
          rw [h1] at hfail
          simp at hfail
        · exact h
      obtain ⟨t2, ht2, hres⟩ := ih cache (acc ++ [(t, r)]) ⟨t0, ht02, hfail⟩
      exact ⟨t2, List.mem_cons_of_mem t ht2, hres⟩
    | none =>
      cases h2 : nearestOnOrBefore t rates with
      | some p =>
        dsimp only
        have ht02 : t0 ∈ ts := by
          rcases List.mem_cons.mp ht0 with rfl | h
          · exfalso
            unfold ratesFor at hfail
            rw [h1, h2] at hfail
            simp at hfail
          · exact h
        obtain ⟨t2, ht2, hres⟩ := ih (cacheInsert cache t p.2) (acc ++ [(t, p.2)])
          ⟨t0, ht02, hfail⟩
        exact ⟨t2, List.mem_cons_of_mem t ht2, hres⟩
      | none => exact ⟨t, List.mem_cons_self t ts, rfl⟩

lemma ratesFor_published (pub : ℤ → Option ℚ) (lo hi t : ℤ) (v : ℚ)
    (hlo : lo ≤ t) (hhi : t ≤ hi) (hv : pub t = some v) :
    ratesFor (ratesIn pub lo hi) t = some (round4 (1 / v)) := by
  have h : alookup (ratesIn pub lo hi) t = some (round4 (1 / v)) := by
    rw [alookup_ratesIn, if_pos ⟨hlo, hhi⟩, hv]
    rfl
  unfold ratesFor
  rw [h]

lemma ratesFor_fallback (pub : ℤ → Option ℚ) (lo hi t d : ℤ) (v : ℚ)
    (hpt : pub t = none) (hlo : lo ≤ d) (hdt : d ≤ t) (hdhi : d ≤ hi)
    (hv : pub d = some v)
    (hmax : ∀ d2, d < d2 → d2 ≤ t → d2 ≤ hi → pub d2 = none) :
    ratesFor (ratesIn pub lo hi) t = some (round4 (1 / v)) := by
  have h1 : alookup (ratesIn pub lo hi) t = none := by
    rw [alookup_ratesIn]
    simp [hpt]
  have h2 := nob_ratesIn_eq pub lo hi t d v hlo hdt hdhi hv hmax
  unfold ratesFor
  rw [h1, h2]
  rfl

lemma ratesFor_isSome (pub : ℤ → Option ℚ) (lo hi t d : ℤ) (v : ℚ)
    (hlo : lo ≤ d) (hdt : d ≤ t) (hdhi : d ≤ hi) (hv : pub d = some v) :
    (ratesFor (ratesIn pub lo hi) t).isSome = true := by
  unfold ratesFor
  cases ha : alookup (ratesIn pub lo hi) t with
  | some r => rfl
  | none =>
    cases hn : nearestOnOrBefore t (ratesIn pub lo hi) with
    | some p => rfl
    | none =>
      exfalso
      have hmem : (d, round4 (1 / v)) ∈ ratesIn pub lo hi :=
        mem_ratesIn.mpr ⟨hlo, hdhi, v, hv, rfl⟩
      exact nob_forall_of_none t _ hn (d, round4 (1 / v)) hmem hdt

lemma ratesFor_none (pub : ℤ → Option ℚ) (lo hi t : ℤ)
    (hall : ∀ d2, lo ≤ d2 → d2 ≤ t → pub d2 = none) (hlo : lo ≤ t) :
    ratesFor (ratesIn pub lo hi) t = none := by
  have h1 : alookup (ratesIn pub lo hi) t = none := by
    rw [alookup_ratesIn]
    simp [hall t hlo (le_refl t)]
  have h2 : nearestOnOrBefore t (ratesIn pub lo hi) = none := by
    cases hn : nearestOnOrBefore t (ratesIn pub lo hi) with
    | none => rfl
    | some q =>
      exfalso
      obtain ⟨hqmem, hqt, _⟩ := nob_some t _ q hn
      have hqmem2 : (q.1, q.2) ∈ ratesIn pub lo hi := by simpa using hqmem
      obtain ⟨hqlo, _, w, hw, _⟩ := mem_ratesIn.mp hqmem2
      rw [hall q.1 hqlo hqt] at hw
      exact absurd hw (by simp)
  unfold ratesFor
  rw [h1, h2]
  rfl

lemma getRatesBulk_ok_eq (pub : ℤ → Option ℚ) (cache : RateCache) (d : ℤ)
    (ds : List ℤ) :
    getRatesBulk (Except.ok pub) cache (d :: ds) =
      ((bulkAssign (ratesIn pub (listMin (d :: ds) - 10) (listMax (d :: ds)))
          (d :: ds)
          (cacheUpdate cache
            (ratesIn pub (listMin (d :: ds) - 10) (listMax (d :: ds)))) []).1,
       (bulkAssign (ratesIn pub (listMin (d :: ds) - 10) (listMax (d :: ds)))
          (d :: ds)
          (cacheUpdate cache
            (ratesIn pub (listMin (d :: ds) - 10) (listMax (d :: ds)))) []).2,
       [(listMin (d :: ds) - 10, listMax (d :: ds))]) := rfl

/-- C8: for a nonempty batch, get_rates_bulk performs exactly one upstream
fetch, spanning min(dates) - 10 to max(dates); when each requested date has a
published rate on or before it in that span, the call succeeds, assigning to
each published date its own inverted rate and to each unpublished date the
rate of the most recent published date on or before it, and the cache ends up
populated at every requested date (including fallback dates); if some
requested date has no published rate on or before it in the span, the call
fails with a lookup error naming a requested date. -/
theorem c8_bulk_rates :
    (∀ (upstream : Upstream) (cache : RateCache) (dates : List ℤ),
      dates ≠ [] →
      (getRatesBulk upstream cache dates).2.2 =
        [(listMin dates - 10, listMax dates)]) ∧
    (∀ (pub : ℤ → Option ℚ) (cache : RateCache) (dates : List ℤ),
      dates ≠ [] →
      (∀ t ∈ dates, ∃ d v, listMin dates - 10 ≤ d ∧ d ≤ t ∧ pub d = some v) →
      ∃ res : List (ℤ × ℚ),
        (getRatesBulk (Except.ok pub) cache dates).1 = Except.ok res ∧
        (∀ t ∈ dates, ∀ v : ℚ, pub t = some v →
          alookup res t = some (round4 (1 / v)) ∧
          (getRatesBulk (Except.ok pub) cache dates).2.1 t = some (round4 (1 / v))) ∧
        (∀ t ∈ dates, pub t = none →
          ∀ (d : ℤ) (v : ℚ), listMin dates - 10 ≤ d → d ≤ t → pub d = some v →
          (∀ d2, d < d2 → d2 ≤ t → pub d2 = none) →
          alookup res t = some (round4 (1 / v)) ∧
          (getRatesBulk (Except.ok pub) cache dates).2.1 t = some (round4 (1 / v)))) ∧
    (∀ (pub : ℤ → Option ℚ) (cache : RateCache) (dates : List ℤ) (t : ℤ),
      t ∈ dates →
      (∀ d, listMin dates - 10 ≤ d → d ≤ t → pub d = none) →
      ∃ t2 ∈ dates, (getRatesBulk (Except.ok pub) cache dates).1 =
        Except.error (RateError.lookupError t2)) := by
  refine ⟨?_, ?_, ?_⟩
  · intro upstream cache dates hne
    rcases dates with _ | ⟨d0, ds⟩
    · exact absurd rfl hne
    · cases upstream with
      | error e => rfl
      | ok pub => rfl
  · intro pub cache dates hne hw
    rcases dates with _ | ⟨d0, ds⟩
    · exact absurd rfl hne
    have hall : ∀ t ∈ d0 :: ds,
        (ratesFor (ratesIn pub (listMin (d0 :: ds) - 10) (listMax (d0 :: ds))) t).isSome
          = true := by
      intro t ht
      obtain ⟨d, v, h1, h2, h3⟩ := hw t ht
      exact ratesFor_isSome pub _ _ t d v h1 h2 (le_trans h2 (le_listMax ht)) h3
    obtain ⟨res, hres, hpres, hnew⟩ :=
      bulkAssign_result (ratesIn pub (listMin (d0 :: ds) - 10) (listMax (d0 :: ds)))
        (d0 :: ds) hall
        (cacheUpdate cache (ratesIn pub (listMin (d0 :: ds) - 10) (listMax (d0 :: ds)))) []
    refine ⟨res, ?_, ?_, ?_⟩
    · rw [getRatesBulk_ok_eq]
      exact hres
    · intro t ht v hv
      have hb1 : listMin (d0 :: ds) - 10 ≤ t := by
        have := listMin_le ht
        omega
      have hb2 : t ≤ listMax (d0 :: ds) := le_listMax ht
      have hrf := ratesFor_published pub (listMin (d0 :: ds) - 10) (listMax (d0 :: ds))
        t v hb1 hb2 hv
      have ha : alookup (ratesIn pub (listMin (d0 :: ds) - 10) (listMax (d0 :: ds))) t =
          some (round4 (1 / v)) := by
        rw [alookup_ratesIn, if_pos ⟨hb1, hb2⟩, hv]
        rfl
      refine ⟨hnew t ht rfl (round4 (1 / v)) hrf, ?_⟩
      rw [getRatesBulk_ok_eq]
      show (bulkAssign _ (d0 :: ds) _ []).2 t = _
      rw [bulkAssign_cache_published _ (d0 :: ds) _ [] t (by rw [ha]; simp)]
      unfold cacheUpdate
      rw [ha]
    · intro t ht hpt d v h1 h2 h3 hmaxd
      have hb2 : t ≤ listMax (d0 :: ds) := le_listMax ht
      have hrf := ratesFor_fallback pub (listMin (d0 :: ds) - 10) (listMax (d0 :: ds))
        t d v hpt h1 h2 (le_trans h2 hb2) h3 (fun d2 ha hb _ => hmaxd d2 ha hb)
      have hnone : alookup (ratesIn pub (listMin (d0 :: ds) - 10) (listMax (d0 :: ds))) t =
          none := by
        rw [alookup_ratesIn]
        simp [hpt]
      have hnob := nob_ratesIn_eq pub (listMin (d0 :: ds) - 10) (listMax (d0 :: ds))
        t d v h1 h2 (le_trans h2 hb2) h3 (fun d2 ha hb _ => hmaxd d2 ha hb)
      refine ⟨hnew t ht rfl (round4 (1 / v)) hrf, ?_⟩
      rw [getRatesBulk_ok_eq]
      show (bulkAssign _ (d0 :: ds) _ []).2 t = _
      exact bulkAssign_cache_fallback _ (d0 :: ds) hall _ [] t (d, round4 (1 / v))
        ht hnone hnob
  · intro pub cache dates t ht hwnone
    rcases dates with _ | ⟨d0, ds⟩
    · simp at ht
    have hlo : listMin (d0 :: ds) - 10 ≤ t := by
      have := listMin_le ht
      omega
    have hrf := ratesFor_none pub (listMin (d0 :: ds) - 10) (listMax (d0 :: ds)) t
      (fun d2 ha hb => hwnone d2 ha hb) hlo
    obtain ⟨t2, ht2, hfail⟩ :=
      bulkAssign_fail (ratesIn pub (listMin (d0 :: ds) - 10) (listMax (d0 :: ds)))
        (d0 :: ds)
        (cacheUpdate cache (ratesIn pub (listMin (d0 :: ds) - 10) (listMax (d0 :: ds)))) []
        ⟨t, ht, hrf⟩
    refine ⟨t2, ht2, ?_⟩
    rw [getRatesBulk_ok_eq]
    exact hfail

/-- C8 witness: the batch [0, 2] against a series published at days 2 and -3;
day 2 is served directly, day 0 falls back to day -3, and both end up in the
result and the cache with rate round4(1 / 1.25) = 0.8. -/
theorem c8_bulk_rates_witness :
    ([0, 2] : List ℤ) ≠ [] ∧
    (∀ t ∈ ([0, 2] : List ℤ), ∃ d v, listMin [0, 2] - 10 ≤ d ∧ d ≤ t ∧
      pubTwo d = some v) ∧
    (∃ res : List (ℤ × ℚ),
      (getRatesBulk (Except.ok pubTwo) emptyCache [0, 2]).1 = Except.ok res ∧
      (∀ t ∈ ([0, 2] : List ℤ), ∀ v : ℚ, pubTwo t = some v →
        alookup res t = some (round4 (1 / v)) ∧
        (getRatesBulk (Except.ok pubTwo) emptyCache [0, 2]).2.1 t =
          some (round4 (1 / v))) ∧
      (∀ t ∈ ([0, 2] : List ℤ), pubTwo t = none →
        ∀ (d : ℤ) (v : ℚ), listMin [0, 2] - 10 ≤ d → d ≤ t → pubTwo d = some v →
        (∀ d2, d < d2 → d2 ≤ t → pubTwo d2 = none) →
        alookup res t = some (round4 (1 / v)) ∧
        (getRatesBulk (Except.ok pubTwo) emptyCache [0, 2]).2.1 t =
          some (round4 (1 / v)))) := by
  have hw : ∀ t ∈ ([0, 2] : List ℤ), ∃ d v, listMin [0, 2] - 10 ≤ d ∧ d ≤ t ∧
      pubTwo d = some v := by
    intro t ht
    rcases List.mem_cons.mp ht with rfl | ht2
    · refine ⟨-3, 5/4, ?_, ?_, ?_⟩
      · norm_num [listMin]
      · norm_num
      · rfl
    · rcases List.mem_cons.mp ht2 with rfl | ht3
      · refine ⟨2, 5/4, ?_, ?_, ?_⟩
        · norm_num [listMin]
        · norm_num
        · rfl
      · simp at ht3
  exact ⟨by simp, hw, c8_bulk_rates.2.1 pubTwo emptyCache [0, 2] (by simp) hw⟩
